import Mathlib

/-!
Verification of the DailyMed medication search tool (`search_medication.py`).

Python text values are embedded as `List Char` (`Str`); Python's `str`
methods used by the program (`lower`, `strip`, `in`, `join`, `split`,
`startswith`) are modelled character-by-character for the ASCII texts the
program manipulates.  The `urllib.parse` functions are modelled on the URL
shapes this program feeds them (checked against CPython's documented
behaviour): `urlparse` lower-cases a valid scheme and preserves the case of
the netloc, `parse_qs` drops blank values and splits on `&` (percent
decoding is not modelled; the theorems below never hit inputs containing
`%` or `+`).  The HTML documents handled by BeautifulSoup are abstracted by
the data the source code reads off them: the list of `href` attributes of a
search page, and the extractor outcomes of a label page.
-/

/-- Python strings, embedded as their character lists. -/
abbrev Str := List Char

/-- Turns a Lean string literal into the `Str` embedding. -/
def str (s : String) : Str := s.data

/-- ASCII letter test (models `str.isalpha` restricted to ASCII). -/
def asciiLetter (c : Char) : Bool :=
  decide ((65 ≤ c.toNat ∧ c.toNat ≤ 90) ∨ (97 ≤ c.toNat ∧ c.toNat ≤ 122))

/-- ASCII digit test (models the regex class `\d` on ASCII text). -/
def asciiDigit (c : Char) : Bool :=
  decide (48 ≤ c.toNat ∧ c.toNat ≤ 57)

/-- Python whitespace (the six ASCII characters `str.strip` removes). -/
def isPyWs (c : Char) : Bool :=
  decide (c.toNat = 32 ∨ c.toNat = 9 ∨ c.toNat = 10 ∨ c.toNat = 13 ∨
    c.toNat = 11 ∨ c.toNat = 12)

/-- Characters of the regex class `[\w\s-]` (ASCII): kept by the
ingredient-cleaning substitution `re.sub(r'[^\w\s-]', '', ing)`. -/
def isWordSpaceHyphen (c : Char) : Bool :=
  asciiLetter c || asciiDigit c || decide (c.toNat = 95) || isPyWs c ||
    decide (c.toNat = 45)

/-- ASCII model of `str.lower` on one character. -/
def pyLowerChar (c : Char) : Char :=
  if 65 ≤ c.toNat ∧ c.toNat ≤ 90 then Char.ofNat (c.toNat + 32) else c

/-- ASCII model of `str.upper` on one character. -/
def pyUpperChar (c : Char) : Char :=
  if 97 ≤ c.toNat ∧ c.toNat ≤ 122 then Char.ofNat (c.toNat - 32) else c

/-- Models Python `s.lower()`. -/
def pyLower (s : Str) : Str := s.map pyLowerChar

/-- Models Python `s.strip()` (whitespace removal at both ends). -/
def pyStrip (s : Str) : Str :=
  ((s.dropWhile isPyWs).reverse.dropWhile isPyWs).reverse

/-- Models Python substring membership `needle in hay`. -/
def pySub (needle : Str) : Str → Bool
  | [] => needle.isPrefixOf []
  | c :: t => needle.isPrefixOf (c :: t) || pySub needle t

/-- Models Python `s.split(sep, 1)`: the part before the first separator,
and `some` remainder when the separator occurs. -/
def splitFirst (sep : Char) : Str → Str × Option Str
  | [] => ([], none)
  | c :: t =>
    if c = sep then ([], some t)
    else
      let r := splitFirst sep t
      (c :: r.1, r.2)

/-- Models Python `s.split(sep)` (unbounded split; `"".split(sep) = [""]`). -/
def pySplitAll (sep : Char) : Str → List Str
  | [] => [[]]
  | c :: t =>
    if c = sep then [] :: pySplitAll sep t
    else
      match pySplitAll sep t with
      | [] => [[c]]
      | h :: r => (c :: h) :: r

/-- Models Python `sep.join(xs)`. -/
def joinSep (sep : Str) : List Str → Str
  | [] => []
  | [x] => x
  | x :: y :: r => x ++ sep ++ joinSep sep (y :: r)

/-- Models the f-string rendering of an optional value: `None` renders as
the text `None`, a string renders as itself. -/
def pyShowOpt (o : Option Str) : Str := o.getD (str "None")

/-- Apostrophe character, used by the reasoning strings of the form
classifier. -/
def apos : Char := '\''

/-- Configured allergen list (module constant `ALLERGENS`, source order and
duplicates preserved). -/
def ALLERGENS : List Str :=
  [str "eggs", str "corn", str "cornstarch", str "corn starch",
   str "dextrose", str "lactose", str "whey", str "wheat", str "xylitol",
   str "wheat", str "gluten", str "barley", str "oats", str "corn",
   str "cornstarch", str "dextrose", str "lactose", str "casein",
   str "whey", str "nuts", str "eggs", str "xylitol", str "sorbitol"]

/-- Form keywords that qualify (module constant `QUALIFYING_FORMS`). -/
def QUALIFYING_FORMS : List Str :=
  [str "capsule", str "liquid", str "tablet", str "oral",
   str "suspension", str "solution", str "syrup"]

/-- Form keywords that disqualify (module constant `DISQUALIFYING_FORMS`). -/
def DISQUALIFYING_FORMS : List Str :=
  [str "cream", str "ointment", str "injection", str "topical",
   str "gel", str "lotion", str "spray", str "patch"]

/-! URL handling, modelling `_extract_result_urls` (source lines 98-164)
together with the `urllib.parse` helpers it calls. -/

/-- Characters allowed in a scheme name by `urllib.parse.urlsplit`
(letters, digits, `+`, `-`, `.`). -/
def schemeChar (c : Char) : Bool :=
  asciiLetter c || asciiDigit c || decide (c.toNat = 43) ||
    decide (c.toNat = 45) || decide (c.toNat = 46)

/-- Netloc characters: `urlsplit` ends the netloc at `/`, `?` or `#`. -/
def netlocChar (c : Char) : Bool :=
  !(c = '/' || c = '?' || c = '#')

/-- Validity test `urlsplit` applies to the text before the first `:`
before treating it as a scheme. -/
def validSchemeName (pre : Str) : Bool :=
  !pre.isEmpty &&
  (match pre with
   | [] => false
   | c :: _ => asciiLetter c) &&
  pre.all schemeChar

/-- Result of `urllib.parse.urlparse` restricted to the four components
`_extract_result_urls` reads (`params` and `fragment` are never read). -/
structure ParsedUrl where
  scheme : Str
  netloc : Str
  path : Str
  query : Str
deriving DecidableEq

/-- Scheme detection of `urlsplit`: the text before the first `:` becomes
the scheme, lower-cased, when it is a valid scheme name. -/
def splitScheme (u : Str) : Str × Str :=
  match splitFirst ':' u with
  | (pre, some rest) => if validSchemeName pre then (pyLower pre, rest) else ([], u)
  | (_, none) => ([], u)

/-- Models `urllib.parse.urlparse`: scheme (lower-cased), netloc (case
preserved, ended by `/`, `?` or `#`), then fragment split on the first `#`
and query split on the first `?`. -/
def parseUrl (u : Str) : ParsedUrl :=
  let sr := splitScheme u
  let nr : Str × Str :=
    if (str "//").isPrefixOf sr.2 then
      ((sr.2.drop 2).takeWhile netlocChar, (sr.2.drop 2).dropWhile netlocChar)
    else ([], sr.2)
  let afterFrag := (splitFirst '#' nr.2).1
  let pq := splitFirst '?' afterFrag
  { scheme := sr.1, netloc := nr.1, path := pq.1, query := pq.2.getD [] }

/-- Models `parse_qs(query)['setid'][0]` guarded by
`'setid' in query_params`: the first `setid` value in the query string.
Pieces are split on `&`; a piece with no `=` or a blank value is dropped,
exactly as `parse_qs` does with its default arguments. -/
def qsSetidFirst (query : Str) : Option Str :=
  (pySplitAll '&' query).findSome? (fun piece =>
    match splitFirst '=' piece with
    | (k, some v) => if k = str "setid" ∧ v ≠ [] then some v else none
    | (_, none) => none)

/-- Models `urljoin(BASE_URL, href)` for an href that carries its own
scheme: `urljoin` returns the href unchanged when the scheme differs from
the base's `https`, and recomposes the parsed pieces (scheme lower-cased)
when the scheme is `https`.  The recomposition drops an empty query or
fragment, which never occurs on the inputs of the theorems below. -/
def joinAbsolute (href : Str) : Str :=
  if (splitScheme href).1 = str "https" then
    let p := parseUrl href
    str "https://" ++ p.netloc ++ p.path ++
      (if p.query ≠ [] then str "?" ++ p.query else [])
  else href

/-- Models `urljoin(BASE_URL, href)` with
`BASE_URL = "https://dailymed.nlm.nih.gov/dailymed/search.cfm"` for the
href shapes this program passes it: protocol-relative, root-relative,
absolute with an explicit scheme, query-only, and plain relative
references without dot segments. -/
def urljoinBase (href : Str) : Str :=
  if (str "//").isPrefixOf href then str "https:" ++ href
  else if (str "/").isPrefixOf href then
    str "https://dailymed.nlm.nih.gov" ++ href
  else if (splitScheme href).1 ≠ [] then joinAbsolute href
  else if (str "?").isPrefixOf href then
    str "https://dailymed.nlm.nih.gov/dailymed/search.cfm" ++ href
  else str "https://dailymed.nlm.nih.gov/dailymed/" ++ href

/-- The absolute-URL step of `_extract_result_urls` (source lines 123-129):
an href starting with `/`, or not starting with `http`, is joined onto the
base URL; otherwise it is used as is. -/
def toFullUrl (href : Str) : Str :=
  if (str "/").isPrefixOf href then urljoinBase href
  else if !(str "http").isPrefixOf href then urljoinBase href
  else href

/-- The normalization step of `_extract_result_urls` (source lines
131-136): parse the full URL, and when a `setid` query parameter is
present rebuild `f"{scheme}://{netloc}{path}?setid={setid}"`. -/
def normalizeFull (full : Str) : Option Str :=
  let p := parseUrl full
  match qsSetidFirst p.query with
  | some sid => some (p.scheme ++ str "://" ++ p.netloc ++ p.path ++ str "?setid=" ++ sid)
  | none => none

/-- Candidate identifier produced from one result link by the primary
branch of `_extract_result_urls` (source lines 115-136): the guard
`'lookup.cfm' in href or 'setid=' in href`, the absolute-URL step, then
setid normalization. -/
def candidateOf (href : Str) : Option Str :=
  if pySub (str "lookup.cfm") href || pySub (str "setid=") href then
    normalizeFull (toFullUrl href)
  else none

/-! Extraction strategies and the page classifier. -/

/-- Outcome of one call to the external classifier, as the source code
distinguishes them: the call (or the JSON decode inside the `try`) raised,
the completion carried no JSON object/array (`re.search` found nothing),
or a JSON value was successfully extracted. -/
inductive AiCall (α : Type) where
  | callFailed : AiCall α
  | noJson : AiCall α
  | parsed : α → AiCall α
deriving DecidableEq

/-- Form-analysis record (the JSON object returned by the external
classifier, or built by `_analyze_form_type_regex`); every field is
optional because a parsed JSON object may lack any of them. -/
structure FormAnalysis where
  form_type : Option Str
  confidence : Option Str
  reasoning : Option Str
deriving DecidableEq

/-- Models `_analyze_form_type_regex` (source lines 433-459): the
disqualifying keyword scan over the lower-cased title first, then the
qualifying scan, else `unknown`. -/
def analyzeFormTypeRegex (title : Str) : FormAnalysis :=
  let titleLower := pyLower title
  match DISQUALIFYING_FORMS.find? (fun f => pySub f titleLower) with
  | some f =>
    { form_type := some (str "disqualify"), confidence := some (str "high"),
      reasoning := some (str "Contains " ++ [apos] ++ f ++ [apos] ++ str " in name") }
  | none =>
    match QUALIFYING_FORMS.find? (fun f => pySub f titleLower) with
    | some f =>
      { form_type := some f, confidence := some (str "high"),
        reasoning := some (str "Contains " ++ [apos] ++ f ++ [apos] ++ str " in name") }
    | none =>
      { form_type := some (str "unknown"), confidence := some (str "low"),
        reasoning := some (str "Could not determine form type") }

/-- Models `_analyze_form_type_ai` (source lines 393-431): without a
client, or when the call fails or no JSON object is found in the
completion, fall back to the regex scan; a parsed JSON object is returned
as is (its fields are not validated). -/
def analyzeFormTypeAi (client : Bool) (resp : AiCall FormAnalysis) (title : Str) : FormAnalysis :=
  if client = false then analyzeFormTypeRegex title
  else
    match resp with
    | AiCall.parsed d => d
    | _ => analyzeFormTypeRegex title

/-- The final cleaning of `_extract_inactive_ingredients_bs4` (source
lines 617-626 and 717-729): strip characters outside `[\w\s-]`, strip
whitespace, keep tokens longer than 2 characters, deduplicate via
`list(set(...))` (set iteration order is modelled as first-occurrence
order; all claims treat the result as an order-insignificant set). -/
def cleanIngredientTokens (raw : List Str) : List Str :=
  (((raw.map (fun ing => pyStrip (ing.filter isWordSpaceHyphen))).filter
    (fun ing => decide (2 < ing.length)))).dedup

/-- Models `_extract_inactive_ingredients_bs4` (source lines 570-729).
The BeautifulSoup strategies are abstracted by `raw`, the list of
harvested ingredient strings in harvest order; every append site in the
source lower-cases the string before appending, and the pre-clean filters
of the strategies are part of the harvest.  The final cleaning (lines
717-729) is modelled exactly. -/
def extractInactiveIngredientsBs4 (raw : List Str) : List Str :=
  cleanIngredientTokens raw

/-- The list comprehension applied to a parsed JSON ingredient array
(source line 557): keep truthy items, strip and lower-case each. -/
def aiIngredientItems (arr : List Str) : List Str :=
  (arr.filter (fun s => !s.isEmpty)).map (fun s => pyLower (pyStrip s))

/-- Models `_extract_inactive_ingredients_ai` (source lines 461-568):
without a client, or when the call fails or no JSON array is found, fall
back to the BeautifulSoup extraction; a parsed JSON array is cleaned by
the comprehension of line 557 only. -/
def extractInactiveIngredientsAi (client : Bool) (resp : AiCall (List Str))
    (raw : List Str) : List Str :=
  if client = false then extractInactiveIngredientsBs4 raw
  else
    match resp with
    | AiCall.parsed arr => aiIngredientItems arr
    | _ => extractInactiveIngredientsBs4 raw

/-- Models `_check_allergies` (source lines 731-739): join the ingredient
list with spaces, lower-case it, and return the first configured allergen
contained in it as a substring. -/
def checkAllergies (ingredients : List Str) : Bool × Option Str :=
  let ingredientsText := pyLower (joinSep (str " ") ingredients)
  match ALLERGENS.find? (fun a => pySub (pyLower a) ingredientsText) with
  | some a => (true, some a)
  | none => (false, none)

/-- A fetched label page, abstracted by the outcomes the classifier reads
from it: the NDC-warning detector result on its soup
(`_check_inactive_ndc_warning`), the title extractor result
(`_extract_medication_title`), the external-classifier call outcomes for
this page, and the raw ingredient strings the BeautifulSoup strategies
harvest from it. -/
structure LabelDoc where
  hasNdcWarning : Bool
  title : Option Str
  aiForm : AiCall FormAnalysis
  aiIng : AiCall (List Str)
  rawIngredients : List Str
deriving DecidableEq

/-- Classification verdict: the decision-relevant fields of the result
dict of `process_medication_page` (the purely diagnostic sub-dicts, which
the source never reads for the decision, are omitted).  The `form_type`
key is only set on qualified results, hence it is optional. -/
structure Verdict where
  qualified : Bool
  url : Str
  disqualification_reason : Option Str
  title : Option Str
  inactive_ingredients : List Str
  form_type : Option Str
deriving DecidableEq

/-- Models `process_medication_page` (source lines 741-811): fetch, NDC
warning, title, form, ingredients + allergens, in that order, with an
early return at the first disqualifying condition. -/
def processMedicationPage (client : Bool) (url : Str) (page : Option LabelDoc) : Verdict :=
  match page with
  | none =>
    { qualified := false, url := url,
      disqualification_reason := some (str "page_fetch_failed"),
      title := none, inactive_ingredients := [], form_type := none }
  | some doc =>
    if doc.hasNdcWarning then
      { qualified := false, url := url,
        disqualification_reason := some (str "inactive_ndc_warning"),
        title := none, inactive_ingredients := [], form_type := none }
    else
      match doc.title with
      | none =>
        { qualified := false, url := url,
          disqualification_reason := some (str "title_not_found"),
          title := none, inactive_ingredients := [], form_type := none }
      | some t =>
        let fa := analyzeFormTypeAi client doc.aiForm t
        if fa.form_type = some (str "disqualify") ∨ fa.form_type = some (str "unknown") then
          { qualified := false, url := url,
            disqualification_reason := some (str "form_type_" ++ pyShowOpt fa.form_type),
            title := some t, inactive_ingredients := [], form_type := none }
        else
          let ings := extractInactiveIngredientsAi client doc.aiIng doc.rawIngredients
          let chk := checkAllergies ings
          if chk.1 then
            { qualified := false, url := url,
              disqualification_reason := some (str "allergen_found_" ++ pyShowOpt chk.2),
              title := some t, inactive_ingredients := ings, form_type := none }
          else
            { qualified := true, url := url, disqualification_reason := none,
              title := some t, inactive_ingredients := ings,
              form_type := some (fa.form_type.getD (str "unknown")) }

/-! Crawl controller. -/

/-- One fetched search-result page, abstracted by what
`collect_all_result_urls` reads from its HTML: the `href` attributes of
its links in document order, and the verdict of the `_has_next_page`
heuristic stack on it. -/
structure SearchPageDoc where
  hrefs : List Str
  hasNext : Bool
deriving DecidableEq

/-- Primary loop of `_extract_result_urls` (source lines 115-142):
normalized candidates are appended and added to the seen-set when unseen;
returns the appended URLs and the updated seen-set. -/
def addNormalized : List Str → List Str → List Str × List Str
  | [], seen => ([], seen)
  | h :: t, seen =>
    match candidateOf h with
    | some nu =>
      if nu ∈ seen then addNormalized t seen
      else
        let r := addNormalized t (nu :: seen)
        (nu :: r.1, r.2)
    | none => addNormalized t seen

/-- Fallback loop of `_extract_result_urls` (source lines 145-162), run
only when the primary loop found nothing: any href containing `setid=` is
made absolute and appended without setid normalization, still guarded by
the seen-set. -/
def addFallback : List Str → List Str → List Str × List Str
  | [], seen => ([], seen)
  | h :: t, seen =>
    if pySub (str "setid=") h then
      let fu := toFullUrl h
      if fu ∈ seen then addFallback t seen
      else
        let r := addFallback t (fu :: seen)
        (fu :: r.1, r.2)
    else addFallback t seen

/-- Models `_extract_result_urls` (source lines 98-164): the primary loop,
then the fallback loop when no URL was found. -/
def extractResultUrls (hrefs : List Str) (seen : List Str) : List Str × List Str :=
  let r := addNormalized hrefs seen
  if r.1 = [] then addFallback hrefs r.2 else r

/-- Models `collect_all_result_urls` (source lines 216-251).  The
unbounded `while True` loop is modelled with explicit fuel; the theorems
below show the stopping behaviour is fuel-independent.  A failed fetch
breaks; otherwise the page's URLs are collected and the loop continues
only when the has-next heuristic fired and the page yielded at least one
new URL. -/
def collectAllResultUrls (fetchSearch : Nat → Option SearchPageDoc) :
    Nat → Nat → List Str → List Str
  | 0, _, _ => []
  | fuel + 1, page, seen =>
    match fetchSearch page with
    | none => []
    | some doc =>
      let r := extractResultUrls doc.hrefs seen
      if doc.hasNext = false ∨ r.1 = [] then r.1
      else r.1 ++ collectAllResultUrls fetchSearch fuel (page + 1) r.2

/-- Models `search_medication` (source lines 813-868): collect all result
URLs starting from page 1 with an empty seen-set, classify each collected
URL once, in order, and keep the qualified verdicts. -/
def searchMedication (client : Bool) (fetchSearch : Nat → Option SearchPageDoc)
    (fetchLabel : Str → Option LabelDoc) (fuel : Nat) : List Verdict :=
  let resultUrls := collectAllResultUrls fetchSearch fuel 1 []
  (resultUrls.map (fun u => processMedicationPage client u (fetchLabel u))).filter
    (fun v => v.qualified)

/-! Reporting. -/

/-- ASCII model of Python `str.title()`, used for the `Form:` line. -/
def pyTitleCaseGo (prevAlpha : Bool) : Str → Str
  | [] => []
  | c :: t =>
    (if asciiLetter c then (if prevAlpha then pyLowerChar c else pyUpperChar c) else c) ::
      pyTitleCaseGo (asciiLetter c) t

/-- Models Python `s.title()`. -/
def pyTitleCase (s : Str) : Str := pyTitleCaseGo false s

/-- Numbered result entries of `format_results` (source lines 970-975),
starting at index `i`. -/
def formatEntries (i : Nat) : List Verdict → List String
  | [] => []
  | r :: rest =>
    ([toString i ++ ". " ++ String.mk (pyShowOpt r.title),
      "   " ++ String.mk (r.url)] ++
     (match r.form_type with
      | some ft => if ft ≠ [] then ["   Form: " ++ String.mk (pyTitleCase ft)] else []
      | none => []) ++
     [""]) ++ formatEntries (i + 1) rest

/-- The output lines of `format_results` (source lines 957-980), before
joining with newlines. -/
def formatResultLines (medicationName : String) (results : List Verdict) : List String :=
  ["Search Results for: " ++ medicationName,
   String.mk (List.replicate 60 '='),
   "",
   "Qualified Medications (No Allergens, Capsule/Liquid Only):",
   ""] ++
  (if results = [] then
    ["No qualified medications found.", ""]
   else
    formatEntries 1 results ++
    ["Total: " ++ toString results.length ++ " qualified result(s)", ""])

/-- Models `format_results`: the lines joined with newlines. -/
def formatResults (medicationName : String) (results : List Verdict) : String :=
  String.intercalate "\n" (formatResultLines medicationName results)

/-- Follows the words of the ingredient-normalization claim: every
returned ingredient string contains only word/space/hyphen characters, is
trimmed, lower-cased, strictly longer than 2 characters and not purely
numeric, and the returned list is duplicate-free.  This is the claim's
property, stated so it can be compared against the code's output. -/
def claimNormalizedOutput (l : List Str) : Prop :=
  l.Nodup ∧ ∀ s ∈ l, s.all isWordSpaceHyphen = true ∧ pyStrip s = s ∧
    pyLower s = s ∧ 2 < s.length ∧ ¬(s.all asciiDigit = true)

/-! General lemmas about the text model. -/

/-- The boolean `isPrefixOf` agrees with the `IsPrefix` relation. -/
theorem isPrefixOfIff : ∀ (a b : Str), a.isPrefixOf b = true ↔ a <+: b
  | [], b => by simp [List.isPrefixOf]
  | c :: t, [] => by simp [List.isPrefixOf]
  | c :: t, d :: u => by
    simp only [List.isPrefixOf, Bool.and_eq_true, beq_iff_eq, List.cons_prefix_cons]
    exact and_congr Iff.rfl (isPrefixOfIff t u)

/-- Python substring membership agrees with the `IsInfix` relation. -/
theorem pySubIff (n : Str) : ∀ (h : Str), pySub n h = true ↔ n <:+: h
  | [] => by simp [pySub, isPrefixOfIff]
  | c :: t => by
    simp only [pySub, Bool.or_eq_true, isPrefixOfIff, pySubIff n t, List.infix_cons_iff]

/-- Substring membership is monotone under infix containment. -/
theorem pySubOfSub {n h H : Str} (h1 : pySub n h = true) (h2 : h <:+: H) :
    pySub n H = true :=
  (pySubIff n H).mpr (((pySubIff n h).mp h1).trans h2)

/-- First-match characterisation of `List.find?`. -/
theorem findEqSomeIff {α : Type} (p : α → Bool) :
    ∀ (l : List α) (a : α), l.find? p = some a ↔
      p a = true ∧ ∃ l1 l2, l = l1 ++ a :: l2 ∧ ∀ b ∈ l1, p b = false
  | [], a => by simp
  | x :: t, a => by
    by_cases hx : p x = true
    · simp only [List.find?_cons_of_pos _ hx, Option.some_inj]
      constructor
      · rintro rfl
        exact ⟨hx, [], t, rfl, by simp⟩
      · rintro ⟨ha, l1, l2, heq, hall⟩
        cases l1 with
        | nil => exact (List.cons.injEq .. ▸ heq).1.symm ▸ rfl
        | cons y u =>
          have hy : y = x := (List.cons.injEq .. ▸ heq).1.symm
          have := hall y (by simp)
          rw [hy] at this
          exact absurd hx (by simp [this])
    · simp only [List.find?_cons_of_neg _ hx, findEqSomeIff p t a]
      constructor
      · rintro ⟨ha, l1, l2, heq, hall⟩
        exact ⟨ha, x :: l1, l2, by simp [heq], by
          intro b hb
          rcases List.mem_cons.mp hb with rfl | hb2
          · simpa using hx
          · exact hall b hb2⟩
      · rintro ⟨ha, l1, l2, heq, hall⟩
        cases l1 with
        | nil =>
          have : x = a := (List.cons.injEq .. ▸ heq).1
          exact absurd (this ▸ ha) hx
        | cons y u =>
          have h1 : y = x := ((List.cons.injEq .. ▸ heq).1).symm
          have h2 : t = u ++ a :: l2 := (List.cons.injEq .. ▸ heq).2
          exact ⟨ha, u, l2, h2, fun b hb => hall b (by simp [hb])⟩

/-- `takeWhile` walks through a block of satisfying elements. -/
theorem takeWhileAppendAll {α : Type} (p : α → Bool) :
    ∀ (a b : List α), (∀ c ∈ a, p c = true) →
      (a ++ b).takeWhile p = a ++ b.takeWhile p
  | [], b, _ => rfl
  | c :: t, b, h => by
    have hc : p c = true := h c (by simp)
    simp only [List.cons_append, List.takeWhile_cons_of_pos hc]
    rw [takeWhileAppendAll p t b (fun d hd => h d (by simp [hd]))]

/-- `dropWhile` walks through a block of satisfying elements. -/
theorem dropWhileAppendAll {α : Type} (p : α → Bool) :
    ∀ (a b : List α), (∀ c ∈ a, p c = true) →
      (a ++ b).dropWhile p = b.dropWhile p
  | [], b, _ => rfl
  | c :: t, b, h => by
    have hc : p c = true := h c (by simp)
    simp only [List.cons_append, List.dropWhile_cons_of_pos hc]
    exact dropWhileAppendAll p t b (fun d hd => h d (by simp [hd]))

/-- `splitFirst` on a separator-free string finds nothing. -/
theorem splitFirstNotMem (sep : Char) :
    ∀ (a : Str), sep ∉ a → splitFirst sep a = (a, none)
  | [], _ => rfl
  | c :: t, h => by
    have hc : ¬c = sep := fun he => h (by simp [he])
    simp only [splitFirst, if_neg hc,
      splitFirstNotMem sep t (fun hm => h (by simp [hm]))]

/-- `splitFirst` splits at the first occurrence of the separator. -/
theorem splitFirstAppend (sep : Char) :
    ∀ (a b : Str), sep ∉ a → splitFirst sep (a ++ sep :: b) = (a, some b)
  | [], b, _ => by simp [splitFirst]
  | c :: t, b, h => by
    have hc : ¬c = sep := fun he => h (by simp [he])
    simp only [List.cons_append, splitFirst, if_neg hc, List.append_eq,
      splitFirstAppend sep t b (fun hm => h (by simp [hm]))]

/-- `pySplitAll` on a separator-free string yields that single piece. -/
theorem pySplitAllNotMem (sep : Char) :
    ∀ (a : Str), sep ∉ a → pySplitAll sep a = [a]
  | [], _ => rfl
  | c :: t, h => by
    have hc : ¬c = sep := fun he => h (by simp [he])
    simp only [pySplitAll, if_neg hc,
      pySplitAllNotMem sep t (fun hm => h (by simp [hm]))]

/-- `pySplitAll` peels off the piece before the first separator. -/
theorem pySplitAllAppend (sep : Char) :
    ∀ (a b : Str), sep ∉ a → pySplitAll sep (a ++ sep :: b) = a :: pySplitAll sep b
  | [], b, _ => by simp [pySplitAll]
  | c :: t, b, h => by
    have hc : ¬c = sep := fun he => h (by simp [he])
    have ih := pySplitAllAppend sep t b (fun hm => h (by simp [hm]))
    simp only [List.cons_append, pySplitAll, if_neg hc, List.append_eq, ih]

/-- A valid character code below the surrogate range round-trips through
`Char.ofNat`. -/
theorem toNatOfNatSmall (n : Nat) (h : n < 55296) : (Char.ofNat n).toNat = n := by
  have hv : n.isValidChar := Or.inl h
  simp [Char.ofNat, hv, Char.ofNatAux, Char.toNat, UInt32.toNat, BitVec.toNat_ofNatLt]

/-- Lower-casing a character is idempotent. -/
theorem pyLowerCharIdem (c : Char) : pyLowerChar (pyLowerChar c) = pyLowerChar c := by
  unfold pyLowerChar
  by_cases h : 65 ≤ c.toNat ∧ c.toNat ≤ 90
  · rw [if_pos h]
    have h2 : (Char.ofNat (c.toNat + 32)).toNat = c.toNat + 32 :=
      toNatOfNatSmall _ (by omega)
    rw [if_neg (by omega)]
  · rw [if_neg h, if_neg h]

/-- Lower-casing preserves whitespace-ness. -/
theorem pyLowerCharWs (c : Char) : isPyWs (pyLowerChar c) = isPyWs c := by
  unfold pyLowerChar isPyWs
  by_cases h : 65 ≤ c.toNat ∧ c.toNat ≤ 90
  · rw [if_pos h]
    have h2 : (Char.ofNat (c.toNat + 32)).toNat = c.toNat + 32 :=
      toNatOfNatSmall _ (by omega)
    rw [h2]
    simp only [decide_eq_decide]
    omega
  · rw [if_neg h]

/-- A map that fixes every member fixes the list. -/
theorem mapFixIff {f : Char → Char} :
    ∀ (s : Str), s.map f = s ↔ ∀ c ∈ s, f c = c
  | [] => by simp
  | c :: t => by
    simp only [List.map_cons, List.cons.injEq, List.mem_cons, mapFixIff (f := f) t]
    constructor
    · rintro ⟨h1, h2⟩ d hd
      rcases hd with rfl | hd2
      · exact h1
      · exact h2 d hd2
    · intro h
      exact ⟨h c (Or.inl rfl), fun d hd => h d (Or.inr hd)⟩

/-- Lower-casing a string is idempotent. -/
theorem pyLowerIdem (s : Str) : pyLower (pyLower s) = pyLower s := by
  unfold pyLower
  rw [List.map_map]
  exact List.map_congr_left (fun c _ => pyLowerCharIdem c)

/-- Lower-casing distributes over append. -/
theorem pyLowerAppend (a b : Str) : pyLower (a ++ b) = pyLower a ++ pyLower b :=
  List.map_append pyLowerChar a b

/-- Lower-casing distributes over joining. -/
theorem pyLowerJoin (sep : Str) :
    ∀ (l : List Str), pyLower (joinSep sep l) = joinSep (pyLower sep) (l.map pyLower)
  | [] => rfl
  | [x] => rfl
  | x :: y :: r => by
    simp only [joinSep, List.map_cons, pyLowerAppend, pyLowerJoin sep (y :: r)]

/-- `dropWhile` is idempotent. -/
theorem dropWhileIdem {α : Type} (p : α → Bool) (s : List α) :
    (s.dropWhile p).dropWhile p = s.dropWhile p := by
  induction s with
  | nil => rfl
  | cons c t ih =>
    by_cases h : p c = true
    · rw [List.dropWhile_cons_of_pos h]; exact ih
    · rw [List.dropWhile_cons_of_neg h, List.dropWhile_cons_of_neg h]

/-- A prefix of a list fixed by `dropWhile` is itself fixed. -/
theorem dropWhileOfPre {α : Type} {p : α → Bool} {l k : List α}
    (hl : l.dropWhile p = l) (hk : k <+: l) : k.dropWhile p = k := by
  cases k with
  | nil => rfl
  | cons c t =>
    obtain ⟨m, hm⟩ := hk
    have h0 : ¬p c = true := by
      have h1 := List.dropWhile_eq_self_iff.mp (hm ▸ hl)
      simpa using h1 (by simp)
    exact List.dropWhile_cons_of_neg h0

/-- Python `strip` is idempotent. -/
theorem pyStripIdem (s : Str) : pyStrip (pyStrip s) = pyStrip s := by
  have h1 : (pyStrip s).dropWhile isPyWs = pyStrip s := by
    apply dropWhileOfPre (dropWhileIdem isPyWs s)
    have h2 := List.dropWhile_suffix (l := (s.dropWhile isPyWs).reverse) isPyWs
    have h3 := List.reverse_prefix.mpr h2
    rwa [List.reverse_reverse] at h3
  conv =>
    lhs
    rw [pyStrip, h1]
  rw [pyStrip, List.reverse_reverse, dropWhileIdem]

/-- Python `strip` commutes with `lower`. -/
theorem pyStripLower (s : Str) : pyStrip (pyLower s) = pyLower (pyStrip s) := by
  have hfun : (isPyWs ∘ pyLowerChar) = isPyWs := funext (fun c => pyLowerCharWs c)
  simp only [pyStrip, pyLower, List.dropWhile_map, hfun, ← List.map_reverse]

/-- Characters of a stripped string come from the original. -/
theorem memPyStrip {c : Char} {s : Str} (h : c ∈ pyStrip s) : c ∈ s := by
  unfold pyStrip at h
  rw [List.mem_reverse] at h
  have h2 := List.IsSuffix.mem h (List.dropWhile_suffix isPyWs)
  rw [List.mem_reverse] at h2
  exact List.IsSuffix.mem h2 (List.dropWhile_suffix isPyWs)

/-- The first joined element is a prefix of the join. -/
theorem joinSepPre (sep : Str) : ∀ (y : Str) (r : List Str), y <+: joinSep sep (y :: r)
  | y, [] => List.prefix_refl y
  | y, z :: r => by
    show y <+: y ++ sep ++ joinSep sep (z :: r)
    rw [List.append_assoc]
    exact List.prefix_append y _

/-- Two adjacent joined elements appear, with the separator between them,
as an infix of the join. -/
theorem joinSepAdj (sep : Str) :
    ∀ (l1 : List Str) (x y : Str) (l2 : List Str),
      (x ++ sep ++ y) <:+: joinSep sep (l1 ++ x :: y :: l2)
  | [], x, y, l2 => by
    show (x ++ sep ++ y) <:+: x ++ sep ++ joinSep sep (y :: l2)
    obtain ⟨t, ht⟩ := joinSepPre sep y l2
    exact ⟨[], t, by rw [← ht]; simp⟩
  | a :: l1, x, y, l2 => by
    have step : joinSep sep (a :: (l1 ++ x :: y :: l2)) =
        a ++ sep ++ joinSep sep (l1 ++ x :: y :: l2) := by
      cases hl : l1 ++ x :: y :: l2 with
      | nil => simp at hl
      | cons z r => rfl
    rw [List.cons_append, step]
    exact (joinSepAdj sep l1 x y l2).trans
      (List.IsSuffix.isInfix (List.suffix_append (a ++ sep) _))

/-- The allergen verdict is the first match of `find?` over `ALLERGENS`. -/
theorem checkAllergiesSnd (ings : List Str) :
    (checkAllergies ings).2 =
      ALLERGENS.find? (fun a => pySub (pyLower a) (pyLower (joinSep (str " ") ings))) := by
  simp only [checkAllergies]
  cases ALLERGENS.find? (fun a => pySub (pyLower a) (pyLower (joinSep (str " ") ings))) with
  | none => rfl
  | some a => rfl

/-- The allergen flag is the `isSome` of the same first match. -/
theorem checkAllergiesFst (ings : List Str) :
    (checkAllergies ings).1 =
      (ALLERGENS.find? (fun a => pySub (pyLower a) (pyLower (joinSep (str " ") ings)))).isSome := by
  simp only [checkAllergies]
  cases ALLERGENS.find? (fun a => pySub (pyLower a) (pyLower (joinSep (str " ") ings))) with
  | none => rfl
  | some a => rfl

/-- C10: for every query string, `format_results` on an empty
qualified-result list yields exactly the fixed header lines followed by
the literal line `No qualified medications found.`; in particular that
line occurs, no line is a numbered result entry (none starts with a
digit), and no line is a total-count line (none starts with `Total:`). -/
theorem C10_format_results_empty (medicationName : String) :
    formatResultLines medicationName [] =
      ["Search Results for: " ++ medicationName,
       String.mk (List.replicate 60 '='), "",
       "Qualified Medications (No Allergens, Capsule/Liquid Only):", "",
       "No qualified medications found.", ""] ∧
    "No qualified medications found." ∈ formatResultLines medicationName [] ∧
    formatResults medicationName [] =
      String.intercalate "\n" (formatResultLines medicationName []) ∧
    (∀ l ∈ formatResultLines medicationName [],
      (str "Total:").isPrefixOf l.data = false) ∧
    (∀ l ∈ formatResultLines medicationName [],
      ∀ c, l.data.head? = some c → asciiDigit c = false) := by
  have he : formatResultLines medicationName [] =
      ["Search Results for: " ++ medicationName,
       String.mk (List.replicate 60 '='), "",
       "Qualified Medications (No Allergens, Capsule/Liquid Only):", "",
       "No qualified medications found.", ""] := rfl
  refine ⟨he, by rw [he]; simp, rfl, ?_, ?_⟩
  · intro l hl
    rw [he] at hl
    simp only [List.mem_cons, List.not_mem_nil, or_false] at hl
    rcases hl with rfl | rfl | rfl | rfl | rfl | rfl | rfl
    · rw [String.data_append]
      rfl
    all_goals rfl
  · intro l hl c hc
    rw [he] at hl
    simp only [List.mem_cons, List.not_mem_nil, or_false] at hl
    rcases hl with rfl | rfl | rfl | rfl | rfl | rfl | rfl
    · rw [String.data_append] at hc
      cases hc
      rfl
    all_goals first
      | (cases hc; rfl)
      | simp at hc

/-- C5: a case-folded title containing any disqualifying keyword is
classified `disqualify` (never a qualifying form); with no disqualifying
keyword the first matching qualifying keyword, in list order, wins; with
no match at all the result is `unknown`. -/
theorem C5_form_keyword_scan :
    (∀ title : Str,
      (∃ d ∈ DISQUALIFYING_FORMS, pySub d (pyLower title) = true) →
      (analyzeFormTypeRegex title).form_type = some (str "disqualify")) ∧
    (∀ (title : Str) (l1 : List Str) (q : Str) (l2 : List Str),
      (∀ d ∈ DISQUALIFYING_FORMS, pySub d (pyLower title) = false) →
      QUALIFYING_FORMS = l1 ++ q :: l2 →
      pySub q (pyLower title) = true →
      (∀ b ∈ l1, pySub b (pyLower title) = false) →
      (analyzeFormTypeRegex title).form_type = some q) ∧
    (∀ title : Str,
      (∀ d ∈ DISQUALIFYING_FORMS, pySub d (pyLower title) = false) →
      (∀ q ∈ QUALIFYING_FORMS, pySub q (pyLower title) = false) →
      (analyzeFormTypeRegex title).form_type = some (str "unknown")) := by
  refine ⟨?_, ?_, ?_⟩
  · rintro title ⟨d, hd, hsub⟩
    have h1 : (DISQUALIFYING_FORMS.find? (fun f => pySub f (pyLower title))).isSome :=
      List.find?_isSome.mpr ⟨d, hd, hsub⟩
    obtain ⟨b, hb⟩ := Option.isSome_iff_exists.mp h1
    simp [analyzeFormTypeRegex, hb]
  · intro title l1 q l2 hdq heq hq hfirst
    have h1 : DISQUALIFYING_FORMS.find? (fun f => pySub f (pyLower title)) = none :=
      List.find?_eq_none.mpr (fun d hd => by simp [hdq d hd])
    have h2 : QUALIFYING_FORMS.find? (fun f => pySub f (pyLower title)) = some q :=
      (findEqSomeIff _ _ _).mpr ⟨hq, l1, l2, heq, hfirst⟩
    simp [analyzeFormTypeRegex, h1, h2]
  · intro title hdq hq
    have h1 : DISQUALIFYING_FORMS.find? (fun f => pySub f (pyLower title)) = none :=
      List.find?_eq_none.mpr (fun d hd => by simp [hdq d hd])
    have h2 : QUALIFYING_FORMS.find? (fun f => pySub f (pyLower title)) = none :=
      List.find?_eq_none.mpr (fun d hd => by simp [hq d hd])
    simp [analyzeFormTypeRegex, h1, h2]

/-- Witness for C5 at concrete titles: a title with both a qualifying and
a disqualifying keyword is disqualified, a title with only qualifying
keywords gets the first one, and an unmatched title is `unknown`. -/
theorem C5_witness :
    (analyzeFormTypeRegex (str "Xyz Topical Capsule")).form_type = some (str "disqualify") ∧
    (analyzeFormTypeRegex (str "Plain Liquid Stuff")).form_type = some (str "liquid") ∧
    (analyzeFormTypeRegex (str "Mystery Thing")).form_type = some (str "unknown") :=
  ⟨C5_form_keyword_scan.1 _ ⟨str "topical", by decide, by decide⟩,
   C5_form_keyword_scan.2.1 (str "Plain Liquid Stuff") [str "capsule"] (str "liquid")
     [str "tablet", str "oral", str "suspension", str "solution", str "syrup"]
     (by decide) (by decide) (by decide) (by decide),
   C5_form_keyword_scan.2.2 _ (by decide) (by decide)⟩

/-- C6 (amended): a network/call failure or a non-JSON completion of the
external classifier falls back to the deterministic heuristic for that
call only, for both form analysis and ingredient extraction (and the
absent-client configuration always uses the heuristic); but a
syntactically valid JSON object is returned as is, without validating
that the expected field is present. -/
theorem C6_classifier_fallback :
    (∀ t : Str, analyzeFormTypeAi true AiCall.callFailed t = analyzeFormTypeRegex t) ∧
    (∀ t : Str, analyzeFormTypeAi true AiCall.noJson t = analyzeFormTypeRegex t) ∧
    (∀ t : Str, analyzeFormTypeAi false AiCall.callFailed t = analyzeFormTypeRegex t) ∧
    (∀ raw : List Str,
      extractInactiveIngredientsAi true AiCall.callFailed raw = extractInactiveIngredientsBs4 raw) ∧
    (∀ raw : List Str,
      extractInactiveIngredientsAi true AiCall.noJson raw = extractInactiveIngredientsBs4 raw) ∧
    (∀ (t : Str) (d : FormAnalysis), analyzeFormTypeAi true (AiCall.parsed d) t = d) :=
  ⟨fun _ => rfl, fun _ => rfl, fun _ => rfl, fun _ => rfl, fun _ => rfl, fun _ _ => rfl⟩

/-- Counterexample to C6 as stated: a parsed JSON object that lacks the
expected `form_type` field is not treated as service-unavailable — the
deterministic fallback is not used (the raw object, with no `form_type`,
is returned instead, although the fallback would have said
`disqualify`). -/
theorem C6_counterexample :
    analyzeFormTypeAi true (AiCall.parsed ⟨none, none, none⟩) (str "test cream")
      ≠ analyzeFormTypeRegex (str "test cream") ∧
    (analyzeFormTypeAi true (AiCall.parsed ⟨none, none, none⟩) (str "test cream")).form_type
      = none ∧
    (analyzeFormTypeRegex (str "test cream")).form_type = some (str "disqualify") := by
  refine ⟨?_, rfl, by decide⟩
  intro h
  have h2 := congrArg FormAnalysis.form_type h
  simp only [analyzeFormTypeAi] at h2
  revert h2
  decide

/-- C4: the allergen check is invariant under lower-casing the
ingredients; its verdict is exactly the first configured allergen, in
list order, contained in the space-joined lower-cased blob; it reports no
allergen when none is contained; and an allergen split across two
adjacent ingredient entries (rejoined by the space separator) is
detected. -/
theorem C4_allergen_matcher :
    (∀ ings : List Str, checkAllergies ings = checkAllergies (ings.map pyLower)) ∧
    (∀ (ings : List Str) (a : Str), (checkAllergies ings).2 = some a ↔
      (pySub (pyLower a) (pyLower (joinSep (str " ") ings)) = true ∧
       ∃ l1 l2, ALLERGENS = l1 ++ a :: l2 ∧
         ∀ b ∈ l1, pySub (pyLower b) (pyLower (joinSep (str " ") ings)) = false)) ∧
    (∀ ings : List Str,
      (∀ a ∈ ALLERGENS, pySub (pyLower a) (pyLower (joinSep (str " ") ings)) = false) →
      checkAllergies ings = (false, none)) ∧
    (∀ (l1 : List Str) (x y : Str) (l2 : List Str) (a : Str), a ∈ ALLERGENS →
      pySub (pyLower a) (pyLower x ++ str " " ++ pyLower y) = true →
      (checkAllergies (l1 ++ x :: y :: l2)).1 = true) := by
  refine ⟨?_, ?_, ?_, ?_⟩
  · intro ings
    have hb : pyLower (joinSep (str " ") (ings.map pyLower)) =
        pyLower (joinSep (str " ") ings) := by
      rw [pyLowerJoin, pyLowerJoin, List.map_map]
      congr 1
      exact List.map_congr_left (fun x _ => by
        simp only [Function.comp_apply]
        exact pyLowerIdem x)
    simp only [checkAllergies, hb]
  · intro ings a
    rw [checkAllergiesSnd]
    simpa using
      findEqSomeIff (fun b => pySub (pyLower b) (pyLower (joinSep (str " ") ings))) ALLERGENS a
  · intro ings h
    have h1 : ALLERGENS.find?
        (fun a => pySub (pyLower a) (pyLower (joinSep (str " ") ings))) = none :=
      List.find?_eq_none.mpr (fun a ha => by simp [h a ha])
    simp [checkAllergies, h1]
  · intro l1 x y l2 a ha hsub
    have hmap : (l1 ++ x :: y :: l2).map pyLower =
        l1.map pyLower ++ pyLower x :: pyLower y :: l2.map pyLower := by simp
    have hblob : (pyLower x ++ str " " ++ pyLower y) <:+:
        pyLower (joinSep (str " ") (l1 ++ x :: y :: l2)) := by
      rw [pyLowerJoin, hmap]
      exact joinSepAdj (pyLower (str " ")) (l1.map pyLower) (pyLower x) (pyLower y)
        (l2.map pyLower)
    have hsub2 := pySubOfSub hsub hblob
    rw [checkAllergiesFst]
    exact List.find?_isSome.mpr ⟨a, ha, hsub2⟩

/-- Witness for C4 at concrete ingredient lists: `corn starch` split
across two capitalised entries is detected, an allergen-free list yields
`(false, none)`, and `lactose` is the first allergen found in a
capitalised lactose entry. -/
theorem C4_witness :
    (checkAllergies [str "Corn", str "Starch"]).1 = true ∧
    checkAllergies [str "benzyl alcohol"] = (false, none) ∧
    (checkAllergies [str "LACTOSE monohydrate"]).2 = some (str "lactose") :=
  ⟨C4_allergen_matcher.2.2.2 [] (str "Corn") (str "Starch") [] (str "corn starch")
     (by decide) (by decide),
   C4_allergen_matcher.2.2.1 [str "benzyl alcohol"] (by decide),
   (C4_allergen_matcher.2.1 [str "LACTOSE monohydrate"] (str "lactose")).mpr
     ⟨by decide,
      [str "eggs", str "corn", str "cornstarch", str "corn starch", str "dextrose"],
      [str "whey", str "wheat", str "xylitol", str "wheat", str "gluten", str "barley",
       str "oats", str "corn", str "cornstarch", str "dextrose", str "lactose",
       str "casein", str "whey", str "nuts", str "eggs", str "xylitol", str "sorbitol"],
      by decide, by decide⟩⟩

/-- C1: the page pipeline runs fetch, NDC warning, title, form, and
ingredients/allergen in that fixed order, stops at the first
disqualifying condition with exactly the tagged reason of that stage, and
the verdict is qualified exactly when no disqualification reason was
set. -/
theorem C1_pipeline_order (client : Bool) (url : Str) (page : Option LabelDoc) :
    ((processMedicationPage client url page).qualified = true ↔
      (processMedicationPage client url page).disqualification_reason = none) ∧
    (page = none →
      (processMedicationPage client url page).disqualification_reason =
        some (str "page_fetch_failed")) ∧
    (∀ doc, page = some doc → doc.hasNdcWarning = true →
      (processMedicationPage client url page).disqualification_reason =
        some (str "inactive_ndc_warning")) ∧
    (∀ doc, page = some doc → doc.hasNdcWarning = false → doc.title = none →
      (processMedicationPage client url page).disqualification_reason =
        some (str "title_not_found")) ∧
    (∀ doc t, page = some doc → doc.hasNdcWarning = false → doc.title = some t →
      ((analyzeFormTypeAi client doc.aiForm t).form_type = some (str "disqualify") ∨
       (analyzeFormTypeAi client doc.aiForm t).form_type = some (str "unknown")) →
      (processMedicationPage client url page).disqualification_reason =
        some (str "form_type_" ++ pyShowOpt (analyzeFormTypeAi client doc.aiForm t).form_type)) ∧
    (∀ doc t a, page = some doc → doc.hasNdcWarning = false → doc.title = some t →
      ¬((analyzeFormTypeAi client doc.aiForm t).form_type = some (str "disqualify") ∨
        (analyzeFormTypeAi client doc.aiForm t).form_type = some (str "unknown")) →
      checkAllergies (extractInactiveIngredientsAi client doc.aiIng doc.rawIngredients) =
        (true, some a) →
      (processMedicationPage client url page).disqualification_reason =
        some (str "allergen_found_" ++ a)) ∧
    (∀ doc t, page = some doc → doc.hasNdcWarning = false → doc.title = some t →
      ¬((analyzeFormTypeAi client doc.aiForm t).form_type = some (str "disqualify") ∨
        (analyzeFormTypeAi client doc.aiForm t).form_type = some (str "unknown")) →
      (checkAllergies (extractInactiveIngredientsAi client doc.aiIng doc.rawIngredients)).1
        = false →
      (processMedicationPage client url page).qualified = true ∧
      (processMedicationPage client url page).disqualification_reason = none ∧
      (processMedicationPage client url page).form_type =
        some ((analyzeFormTypeAi client doc.aiForm t).form_type.getD (str "unknown"))) := by
  refine ⟨?_, ?_, ?_, ?_, ?_, ?_, ?_⟩
  · cases page with
    | none => simp [processMedicationPage]
    | some doc =>
      by_cases hw : doc.hasNdcWarning
      · simp [processMedicationPage, hw]
      · cases ht : doc.title with
        | none => simp [processMedicationPage, hw, ht]
        | some t =>
          by_cases hf : (analyzeFormTypeAi client doc.aiForm t).form_type =
              some (str "disqualify") ∨
              (analyzeFormTypeAi client doc.aiForm t).form_type = some (str "unknown")
          · simp [processMedicationPage, hw, ht, hf]
          · by_cases hc :
              (checkAllergies
                (extractInactiveIngredientsAi client doc.aiIng doc.rawIngredients)).1 = true
            · simp [processMedicationPage, hw, ht, hf, hc]
            · simp [processMedicationPage, hw, ht, hf, hc]
  · rintro rfl
    simp [processMedicationPage]
  · rintro doc rfl hw
    simp [processMedicationPage, hw]
  · rintro doc rfl hw ht
    simp [processMedicationPage, hw, ht]
  · rintro doc t rfl hw ht hf
    simp [processMedicationPage, hw, ht, hf]
  · rintro doc t a rfl hw ht hf hchk
    have h1 : (checkAllergies
        (extractInactiveIngredientsAi client doc.aiIng doc.rawIngredients)).1 = true := by
      rw [hchk]
    have h2 : (checkAllergies
        (extractInactiveIngredientsAi client doc.aiIng doc.rawIngredients)).2 = some a := by
      rw [hchk]
    simp [processMedicationPage, hw, ht, hf, h1, h2, pyShowOpt]
  · rintro doc t rfl hw ht hf hc
    simp [processMedicationPage, hw, ht, hf, hc]

/-- Witness for C1 at concrete pages: a failed fetch, a warning page, and
an allergen-bearing page each stop with the tagged reason of their
stage. -/
theorem C1_witness :
    (processMedicationPage false (str "u") none).disqualification_reason =
      some (str "page_fetch_failed") ∧
    (processMedicationPage false (str "u")
      (some ⟨true, none, AiCall.callFailed, AiCall.callFailed, []⟩)).disqualification_reason =
      some (str "inactive_ndc_warning") ∧
    (processMedicationPage false (str "u")
      (some ⟨false, some (str "Dulce Tablet"), AiCall.callFailed, AiCall.callFailed,
        [str "lactose"]⟩)).disqualification_reason =
      some (str "allergen_found_lactose") :=
  ⟨(C1_pipeline_order false (str "u") none).2.1 rfl,
   (C1_pipeline_order false (str "u")
      (some ⟨true, none, AiCall.callFailed, AiCall.callFailed, []⟩)).2.2.1 _ rfl rfl,
   (C1_pipeline_order false (str "u")
      (some ⟨false, some (str "Dulce Tablet"), AiCall.callFailed, AiCall.callFailed,
        [str "lactose"]⟩)).2.2.2.2.2.1 _ (str "Dulce Tablet") (str "lactose") rfl rfl rfl
      (by decide) (by decide)⟩

/-- C9: an empty extracted ingredient list yields the no-allergen verdict,
so a page whose fetch, NDC-warning, title and form checks all pass is
marked qualified with no disqualification reason — the absence of any
extractable ingredients counts as allergen-free. -/
theorem C9_empty_ingredients_qualify (client : Bool) (url : Str) (doc : LabelDoc) (t : Str)
    (h1 : doc.hasNdcWarning = false) (h2 : doc.title = some t)
    (h3 : ¬((analyzeFormTypeAi client doc.aiForm t).form_type = some (str "disqualify") ∨
            (analyzeFormTypeAi client doc.aiForm t).form_type = some (str "unknown")))
    (h4 : extractInactiveIngredientsAi client doc.aiIng doc.rawIngredients = []) :
    checkAllergies [] = (false, none) ∧
    (processMedicationPage client url (some doc)).qualified = true ∧
    (processMedicationPage client url (some doc)).disqualification_reason = none ∧
    (processMedicationPage client url (some doc)).inactive_ingredients = [] := by
  have hck : checkAllergies [] = (false, none) := by decide
  have hc : (checkAllergies
      (extractInactiveIngredientsAi client doc.aiIng doc.rawIngredients)).1 = false := by
    rw [h4, hck]
  refine ⟨hck, ?_, ?_, ?_⟩ <;> simp [processMedicationPage, h1, h2, h3, h4, hck]

/-- Witness for C9: a concrete label page with a qualifying title and no
extractable ingredients is qualified. -/
theorem C9_witness :
    (processMedicationPage false (str "u")
      (some ⟨false, some (str "Water Solution"), AiCall.callFailed, AiCall.callFailed,
        []⟩)).qualified = true :=
  (C9_empty_ingredients_qualify false (str "u")
    ⟨false, some (str "Water Solution"), AiCall.callFailed, AiCall.callFailed, []⟩
    (str "Water Solution") rfl rfl (by decide) (by decide)).2.1

/-- C7 (amended): the structural (BeautifulSoup) extraction path returns
ingredient strings made only of word/space/hyphen characters, trimmed,
lower-cased (the harvested raw strings being lower-cased by every append
site of the source), longer than 2 characters, and the list is
duplicate-free; the external-classifier path only trims and lower-cases
its items, with no character stripping, no length or numeric filtering
and no deduplication; neither path guarantees the absence of purely
numeric tokens. -/
theorem C7_ingredient_normalization (raw : List Str)
    (hlow : ∀ s ∈ raw, pyLower s = s) :
    ((extractInactiveIngredientsBs4 raw).Nodup ∧
     (∀ s ∈ extractInactiveIngredientsBs4 raw,
       s.all isWordSpaceHyphen = true ∧ pyStrip s = s ∧ pyLower s = s ∧ 2 < s.length)) ∧
    (∀ (arr : List Str), ∀ s ∈ aiIngredientItems arr, pyStrip s = s ∧ pyLower s = s) := by
  constructor
  · constructor
    · exact List.nodup_dedup _
    · intro s hs
      rw [extractInactiveIngredientsBs4, cleanIngredientTokens, List.mem_dedup,
        List.mem_filter] at hs
      obtain ⟨hmem, hlen⟩ := hs
      rw [List.mem_map] at hmem
      obtain ⟨x, hx, rfl⟩ := hmem
      refine ⟨?_, pyStripIdem _, ?_, by simpa using hlen⟩
      · rw [List.all_eq_true]
        intro c hc
        exact (List.mem_filter.mp (memPyStrip hc)).2
      · unfold pyLower
        rw [mapFixIff]
        intro c hc
        have hcx : c ∈ x := (List.mem_filter.mp (memPyStrip hc)).1
        exact (mapFixIff x).mp (hlow x hx) c hcx
  · intro arr s hs
    rw [aiIngredientItems, List.mem_map] at hs
    obtain ⟨x, hx, rfl⟩ := hs
    constructor
    · rw [pyStripLower, pyStripIdem]
    · exact pyLowerIdem _

/-- Witness for C7: the structural path on a concrete lower-cased harvest
yields a duplicate-free list. -/
theorem C7_witness :
    (extractInactiveIngredientsBs4
      [str " corn starch% ", str "ab", str " corn starch% "]).Nodup :=
  (C7_ingredient_normalization
    [str " corn starch% ", str "ab", str " corn starch% "] (by decide)).1.1

/-- Counterexample to C7 as stated: the external-classifier path returns
its items without stripping special characters, without the length and
numeric filters, and without deduplication, so its output violates the
claimed normalization. -/
theorem C7_counterexample :
    extractInactiveIngredientsAi true (AiCall.parsed [str "A!", str "A!"]) [] =
      [str "a!", str "a!"] ∧
    ¬claimNormalizedOutput
      (extractInactiveIngredientsAi true (AiCall.parsed [str "A!", str "A!"]) []) := by
  constructor
  · decide
  · intro h
    have h2 := h.1
    revert h2
    decide

/-- Invariants of the primary extraction loop: the appended URLs are
duplicate-free, none was already seen, and the updated seen-set holds
exactly the old seen-set plus the appended URLs. -/
theorem addNormalizedInv : ∀ (hrefs seen : List Str),
    (addNormalized hrefs seen).1.Nodup ∧
    (∀ u ∈ (addNormalized hrefs seen).1, u ∉ seen) ∧
    (∀ u, u ∈ (addNormalized hrefs seen).2 ↔
      u ∈ (addNormalized hrefs seen).1 ∨ u ∈ seen)
  | [], seen => by simp [addNormalized]
  | h :: t, seen => by
    rcases hco : candidateOf h with _ | nu
    · simpa only [addNormalized, hco] using addNormalizedInv t seen
    · by_cases hmem : nu ∈ seen
      · simpa only [addNormalized, hco, if_pos hmem] using addNormalizedInv t seen
      · obtain ⟨ih1, ih2, ih3⟩ := addNormalizedInv t (nu :: seen)
        simp only [addNormalized, hco, if_neg hmem]
        refine ⟨?_, ?_, ?_⟩
        · rw [List.nodup_cons]
          refine ⟨fun hnu => ?_, ih1⟩
          exact (ih2 nu hnu) (by simp)
        · intro u hu
          rcases List.mem_cons.mp hu with rfl | hu2
          · exact hmem
          · intro hs
            exact (ih2 u hu2) (by simp [hs])
        · intro u
          rw [ih3 u]
          simp only [List.mem_cons]
          tauto

/-- Invariants of the fallback extraction loop, identical in shape to the
primary loop's. -/
theorem addFallbackInv : ∀ (hrefs seen : List Str),
    (addFallback hrefs seen).1.Nodup ∧
    (∀ u ∈ (addFallback hrefs seen).1, u ∉ seen) ∧
    (∀ u, u ∈ (addFallback hrefs seen).2 ↔
      u ∈ (addFallback hrefs seen).1 ∨ u ∈ seen)
  | [], seen => by simp [addFallback]
  | h :: t, seen => by
    by_cases hg : pySub (str "setid=") h = true
    · by_cases hmem : toFullUrl h ∈ seen
      · simpa only [addFallback, if_pos hg, if_pos hmem] using addFallbackInv t seen
      · obtain ⟨ih1, ih2, ih3⟩ := addFallbackInv t (toFullUrl h :: seen)
        simp only [addFallback, if_pos hg, if_neg hmem]
        refine ⟨?_, ?_, ?_⟩
        · rw [List.nodup_cons]
          refine ⟨fun hnu => ?_, ih1⟩
          exact (ih2 _ hnu) (by simp)
        · intro u hu
          rcases List.mem_cons.mp hu with rfl | hu2
          · exact hmem
          · intro hs
            exact (ih2 u hu2) (by simp [hs])
        · intro u
          rw [ih3 u]
          simp only [List.mem_cons]
          tauto
    · simpa only [addFallback, if_neg hg] using addFallbackInv t seen

/-- Invariants of `_extract_result_urls`: the returned URL list is
duplicate-free and fresh with respect to the incoming seen-set, and the
updated seen-set contains both the old one and the returned URLs. -/
theorem extractResultUrlsInv (hrefs seen : List Str) :
    (extractResultUrls hrefs seen).1.Nodup ∧
    (∀ u ∈ (extractResultUrls hrefs seen).1, u ∉ seen) ∧
    (∀ u, u ∈ seen → u ∈ (extractResultUrls hrefs seen).2) ∧
    (∀ u ∈ (extractResultUrls hrefs seen).1, u ∈ (extractResultUrls hrefs seen).2) := by
  obtain ⟨a1, a2, a3⟩ := addNormalizedInv hrefs seen
  unfold extractResultUrls
  by_cases hempty : (addNormalized hrefs seen).1 = []
  · rw [if_pos hempty]
    obtain ⟨f1, f2, f3⟩ := addFallbackInv hrefs (addNormalized hrefs seen).2
    have hseen : ∀ u, u ∈ (addNormalized hrefs seen).2 ↔ u ∈ seen := by
      intro u
      rw [a3 u, hempty]
      simp
    refine ⟨f1, ?_, ?_, ?_⟩
    · intro u hu hs
      exact (f2 u hu) ((hseen u).mpr hs)
    · intro u hs
      exact (f3 u).mpr (Or.inr ((hseen u).mpr hs))
    · intro u hu
      exact (f3 u).mpr (Or.inl hu)
  · rw [if_neg hempty]
    refine ⟨a1, a2, ?_, ?_⟩
    · intro u hs
      exact (a3 u).mpr (Or.inr hs)
    · intro u hu
      exact (a3 u).mpr (Or.inl hu)

/-- The collected URL list of a crawl is duplicate-free and disjoint from
the initial seen-set. -/
theorem collectInv (fetchSearch : Nat → Option SearchPageDoc) :
    ∀ (fuel page : Nat) (seen : List Str),
      (collectAllResultUrls fetchSearch fuel page seen).Nodup ∧
      ∀ u ∈ collectAllResultUrls fetchSearch fuel page seen, u ∉ seen := by
  intro fuel
  induction fuel with
  | zero =>
    intro page seen
    simp [collectAllResultUrls]
  | succ n ih =>
    intro page seen
    cases hf : fetchSearch page with
    | none => simp [collectAllResultUrls, hf]
    | some doc =>
      obtain ⟨e1, e2, e3, e4⟩ := extractResultUrlsInv doc.hrefs seen
      by_cases hstop : doc.hasNext = false ∨ (extractResultUrls doc.hrefs seen).1 = []
      · simp only [collectAllResultUrls, hf, if_pos hstop]
        exact ⟨e1, e2⟩
      · simp only [collectAllResultUrls, hf, if_neg hstop]
        obtain ⟨ihn, ihf⟩ := ih (page + 1) (extractResultUrls doc.hrefs seen).2
        constructor
        · rw [List.nodup_append]
          refine ⟨e1, ihn, ?_⟩
          intro u hu1 hu2
          exact (ihf u hu2) (e4 u hu1)
        · intro u hu
          rcases List.mem_append.mp hu with h1 | h2
          · exact e2 u h1
          · intro hseen
            exact (ihf u h2) (e3 u hseen)

/-- C3: the seen-set makes the collected URL list duplicate-free, so every
candidate identifier occurs at most once in it, and `search_medication`
classifies exactly the entries of that list, one classification per
entry, keeping the qualified verdicts. -/
theorem C3_classified_once (client : Bool) (fetchSearch : Nat → Option SearchPageDoc)
    (fetchLabel : Str → Option LabelDoc) (fuel : Nat) :
    (collectAllResultUrls fetchSearch fuel 1 []).Nodup ∧
    (∀ u : Str,
      @List.count Str instBEqOfDecidableEq u (collectAllResultUrls fetchSearch fuel 1 []) ≤ 1) ∧
    searchMedication client fetchSearch fetchLabel fuel =
      ((collectAllResultUrls fetchSearch fuel 1 []).map
        (fun u => processMedicationPage client u (fetchLabel u))).filter
        (fun v => v.qualified) ∧
    ((collectAllResultUrls fetchSearch fuel 1 []).map
        (fun u => processMedicationPage client u (fetchLabel u))).length =
      (collectAllResultUrls fetchSearch fuel 1 []).length := by
  have h := collectInv fetchSearch fuel 1 []
  exact ⟨h.1, fun u => List.nodup_iff_count_le_one.mp h.1 u, rfl,
    List.length_map _ _⟩

/-- C8: when the page reached by the loop yields no next-page signal or no
new candidate URL (or its fetch fails), the crawl returns that page's
URLs and stops — the result is the same for every remaining fuel, so in
particular a zero-new-candidate page ends the crawl even when the
has-next heuristic keeps answering affirmatively. -/
theorem C8_pagination_stops (fetchSearch : Nat → Option SearchPageDoc)
    (page : Nat) (seen : List Str)
    (h : ∀ doc, fetchSearch page = some doc →
      doc.hasNext = false ∨ (extractResultUrls doc.hrefs seen).1 = []) :
    (∀ fuel : Nat,
      collectAllResultUrls fetchSearch (fuel + 1) page seen =
        collectAllResultUrls fetchSearch 1 page seen) ∧
    collectAllResultUrls fetchSearch 1 page seen =
      (match fetchSearch page with
       | none => []
       | some doc => (extractResultUrls doc.hrefs seen).1) := by
  constructor
  · intro fuel
    cases hf : fetchSearch page with
    | none => simp [collectAllResultUrls, hf]
    | some doc =>
      simp only [collectAllResultUrls, hf, if_pos (h doc hf)]
  · cases hf : fetchSearch page with
    | none => simp [collectAllResultUrls, hf]
    | some doc =>
      simp only [collectAllResultUrls, hf, if_pos (h doc hf)]

/-- Witness for C8: a fetch function whose pages always claim a next page
but never yield a candidate stops after the first page, for any fuel. -/
theorem C8_witness :
    collectAllResultUrls (fun _ => some ⟨[], true⟩) 6 1 [] =
      collectAllResultUrls (fun _ => some ⟨[], true⟩) 1 1 [] ∧
    collectAllResultUrls (fun _ => some ⟨[], true⟩) 6 1 [] = [] :=
  ⟨(C8_pagination_stops (fun _ => some ⟨[], true⟩) 1 []
      (fun doc hd => by
        injection hd with h2
        subst h2
        exact Or.inr rfl)).1 5,
   by
    rw [(C8_pagination_stops (fun _ => some ⟨[], true⟩) 1 []
      (fun doc hd => by
        injection hd with h2
        subst h2
        exact Or.inr rfl)).1 5]
    rfl⟩

/-- `splitFirst` walks through a separator-free block. -/
theorem splitFirstAppendNoSep (sep : Char) :
    ∀ (a b : Str), sep ∉ a →
      splitFirst sep (a ++ b) = (a ++ (splitFirst sep b).1, (splitFirst sep b).2)
  | [], b, _ => rfl
  | c :: t, b, h => by
    have hc : ¬c = sep := fun he => h (by simp [he])
    simp only [List.cons_append, splitFirst, if_neg hc, List.append_eq,
      splitFirstAppendNoSep sep t b (fun hm => h (by simp [hm]))]

/-- A scheme name contains no colon. -/
theorem schemeNoColon {sch : Str} (hs : validSchemeName sch = true) : ':' ∉ sch := by
  intro hm
  have h1 : sch.all schemeChar = true := ((Bool.and_eq_true _ _).mp hs).2
  have h2 := List.all_eq_true.mp h1 ':' hm
  revert h2
  decide

/-- A string containing a non-scheme character is not a valid scheme name. -/
theorem validSchemeNameFalse {pre : Str} {c : Char} (hc : c ∈ pre)
    (hnc : schemeChar c = false) : validSchemeName pre = false := by
  unfold validSchemeName
  cases hall : pre.all schemeChar with
  | false => simp
  | true => exact absurd (List.all_eq_true.mp hall c hc) (by simp [hnc])

/-- Key parsing lemma: `urlparse` on a well-shaped URL
`scheme://netloc path ? query` recovers exactly its components, with the
scheme lower-cased. -/
theorem masterParse (sch netloc path q : Str)
    (hs : validSchemeName sch = true)
    (hn : ∀ c ∈ netloc, netlocChar c = true)
    (hp : path = [] ∨ ∃ pt, path = '/' :: pt)
    (hpq : '?' ∉ path) (hph : '#' ∉ path) (hqh : '#' ∉ q) :
    parseUrl (sch ++ str "://" ++ netloc ++ path ++ str "?" ++ q) =
      ⟨pyLower sch, netloc, path, q⟩ := by
  have hU : sch ++ str "://" ++ netloc ++ path ++ str "?" ++ q =
      sch ++ ':' :: ('/' :: '/' :: (netloc ++ (path ++ '?' :: q))) := by
    simp only [List.append_assoc]
    rfl
  rw [hU]
  have hss : splitScheme (sch ++ ':' :: ('/' :: '/' :: (netloc ++ (path ++ '?' :: q)))) =
      (pyLower sch, '/' :: '/' :: (netloc ++ (path ++ '?' :: q))) := by
    unfold splitScheme
    rw [splitFirstAppend ':' sch _ (schemeNoColon hs)]
    simp [hs]
  have htake : (netloc ++ (path ++ '?' :: q)).takeWhile netlocChar = netloc := by
    rw [takeWhileAppendAll netlocChar netloc _ hn]
    rcases hp with rfl | ⟨pt, rfl⟩
    · simp [List.takeWhile_cons_of_neg, netlocChar]
    · simp [List.takeWhile_cons_of_neg, netlocChar]
  have hdrop : (netloc ++ (path ++ '?' :: q)).dropWhile netlocChar = path ++ '?' :: q := by
    rw [dropWhileAppendAll netlocChar netloc _ hn]
    rcases hp with rfl | ⟨pt, rfl⟩
    · simp [List.dropWhile_cons_of_neg, netlocChar]
    · simp [List.dropWhile_cons_of_neg, netlocChar]
  have hfrag : splitFirst '#' (path ++ '?' :: q) = (path ++ '?' :: q, none) := by
    apply splitFirstNotMem
    intro hm
    rcases List.mem_append.mp hm with h1 | h2
    · exact hph h1
    · rcases List.mem_cons.mp h2 with h3 | h4
      · exact absurd h3 (by decide)
      · exact hqh h4
  have hquery : splitFirst '?' (path ++ '?' :: q) = (path, some q) :=
    splitFirstAppend '?' path q hpq
  have hpre2 : (str "//").isPrefixOf ('/' :: '/' :: (netloc ++ (path ++ '?' :: q))) = true := by
    have h2 : str "//" = ['/', '/'] := by decide
    rw [h2]
    simp [List.isPrefixOf]
  simp only [parseUrl, hss, hpre2, if_true, eq_self_iff_true, List.drop_succ_cons,
    List.drop_zero, htake, hdrop, hfrag, hquery, Option.getD_some]

/-- A block placed between two others is a Python substring of the whole. -/
theorem pySubOfParts (n pre suf : Str) : pySub n (pre ++ n ++ suf) = true :=
  (pySubIff n _).mpr ⟨pre, suf, rfl⟩

/-- A list is a boolean prefix of itself followed by anything. -/
theorem isPrefixOfAppendSelf (a b : Str) : a.isPrefixOf (a ++ b) = true :=
  (isPrefixOfIff a (a ++ b)).mpr (List.prefix_append a b)

/-- A pattern whose head differs from the target's head is not a prefix. -/
theorem notPreOfHeadNe {p : Str} {c d : Char} {a : Str} (hp : p = c :: a)
    (hcd : (c == d) = false) (X : Str) : p.isPrefixOf (d :: X) = false := by
  rw [hp]
  cases h : (c :: a).isPrefixOf (d :: X) with
  | false => rfl
  | true =>
    have h2 := (isPrefixOfIff _ _).mp h
    rw [List.cons_prefix_cons] at h2
    exact absurd h2.1 (fun he => by rw [he] at hcd; simp at hcd)

/-- `parse_qs` reads the setid value straight off a `setid=` query. -/
theorem qsSetidDirect (sid : Str) (hne : sid ≠ []) (hamp : '&' ∉ sid) :
    qsSetidFirst (str "setid=" ++ sid) = some sid := by
  have hshape : str "setid=" ++ sid = str "setid" ++ '=' :: sid := rfl
  have hna : '&' ∉ str "setid=" ++ sid := by
    intro hm
    rcases List.mem_append.mp hm with h1 | h2
    · revert h1; decide
    · exact hamp h2
  have hf : (match splitFirst '=' (str "setid=" ++ sid) with
      | (k, some v) => if k = str "setid" ∧ v ≠ [] then some v else none
      | (_, none) => none) = some sid := by
    rw [hshape, splitFirstAppend '=' (str "setid") sid (by decide)]
    simp [hne]
  unfold qsSetidFirst
  rw [pySplitAllNotMem '&' _ hna]
  simp only [List.findSome?_cons, hf]

/-- `normalizeFull` on a well-shaped URL rebuilds the canonical
setid-normalized identifier. -/
theorem normalizeMaster (sch netloc path q sid : Str)
    (hs : validSchemeName sch = true)
    (hn : ∀ c ∈ netloc, netlocChar c = true)
    (hp : path = [] ∨ ∃ pt, path = '/' :: pt)
    (hpq : '?' ∉ path) (hph : '#' ∉ path) (hqh : '#' ∉ q)
    (hq : qsSetidFirst q = some sid) :
    normalizeFull (sch ++ str "://" ++ netloc ++ path ++ str "?" ++ q) =
      some (pyLower sch ++ str "://" ++ netloc ++ path ++ str "?setid=" ++ sid) := by
  unfold normalizeFull
  rw [masterParse sch netloc path q hs hn hp hpq hph hqh]
  simp only [hq]

/-- `toFullUrl` keeps an absolute URL that starts with `http` untouched. -/
theorem toFullUrlKeep (t : Str) (h1 : (str "/").isPrefixOf t = false)
    (h2 : (str "http").isPrefixOf t = true) : toFullUrl t = t := by
  unfold toFullUrl
  rw [h1, h2]
  simp

/-- Re-normalizing a canonical `http`/`https` setid identifier — the
shape of every identifier the normalizer produces on this site — is a
no-op: identifier normalization is idempotent. -/
theorem candidateIdem (sch netloc path sid : Str)
    (hsch : sch = str "http" ∨ sch = str "https")
    (hn : ∀ c ∈ netloc, netlocChar c = true)
    (hp : path = [] ∨ ∃ pt, path = '/' :: pt)
    (hpq : '?' ∉ path) (hph : '#' ∉ path)
    (hne : sid ≠ []) (hamp : '&' ∉ sid) (hsidh : '#' ∉ sid) :
    candidateOf (sch ++ str "://" ++ netloc ++ path ++ str "?setid=" ++ sid) =
      some (sch ++ str "://" ++ netloc ++ path ++ str "?setid=" ++ sid) := by
  have hguard : pySub (str "setid=")
      (sch ++ str "://" ++ netloc ++ path ++ str "?setid=" ++ sid) = true := by
    have hx : sch ++ str "://" ++ netloc ++ path ++ str "?setid=" ++ sid =
        (sch ++ (str "://" ++ (netloc ++ (path ++ ['?'])))) ++ str "setid=" ++ sid := by
      simp only [List.append_assoc]
      rfl
    rw [hx]
    exact pySubOfParts _ _ _
  have hqv : qsSetidFirst (str "setid=" ++ sid) = some sid := qsSetidDirect sid hne hamp
  have hqh2 : '#' ∉ str "setid=" ++ sid := by
    intro hm
    rcases List.mem_append.mp hm with h1 | h2
    · revert h1; decide
    · exact hsidh h2
  have hresh : sch ++ str "://" ++ netloc ++ path ++ str "?setid=" ++ sid =
      sch ++ str "://" ++ netloc ++ path ++ str "?" ++ (str "setid=" ++ sid) := by
    simp only [List.append_assoc]
    rfl
  unfold candidateOf
  rw [if_pos (by rw [hguard]; simp)]
  rcases hsch with rfl | rfl
  · have hcons : str "http" ++ str "://" ++ netloc ++ path ++ str "?setid=" ++ sid =
        'h' :: (str "ttp://" ++ (netloc ++ (path ++ (str "?setid=" ++ sid)))) := by
      simp only [List.append_assoc]
      rfl
    have h1 : (str "/").isPrefixOf
        (str "http" ++ str "://" ++ netloc ++ path ++ str "?setid=" ++ sid) = false := by
      rw [hcons]
      exact @notPreOfHeadNe (str "/") '/' 'h' [] (by decide) (by decide) _
    have h2 : (str "http").isPrefixOf
        (str "http" ++ str "://" ++ netloc ++ path ++ str "?setid=" ++ sid) = true := by
      have hx : str "http" ++ str "://" ++ netloc ++ path ++ str "?setid=" ++ sid =
          str "http" ++ (str "://" ++ (netloc ++ (path ++ (str "?setid=" ++ sid)))) := by
        simp only [List.append_assoc]
      rw [hx]
      exact isPrefixOfAppendSelf _ _
    rw [toFullUrlKeep _ h1 h2, hresh,
      normalizeMaster (str "http") netloc path (str "setid=" ++ sid) sid (by decide)
        hn hp hpq hph hqh2 hqv,
      show pyLower (str "http") = str "http" from by decide]
    simp only [List.append_assoc]
    rfl
  · have hcons : str "https" ++ str "://" ++ netloc ++ path ++ str "?setid=" ++ sid =
        'h' :: (str "ttps://" ++ (netloc ++ (path ++ (str "?setid=" ++ sid)))) := by
      simp only [List.append_assoc]
      rfl
    have h1 : (str "/").isPrefixOf
        (str "https" ++ str "://" ++ netloc ++ path ++ str "?setid=" ++ sid) = false := by
      rw [hcons]
      exact @notPreOfHeadNe (str "/") '/' 'h' [] (by decide) (by decide) _
    have h2 : (str "http").isPrefixOf
        (str "https" ++ str "://" ++ netloc ++ path ++ str "?setid=" ++ sid) = true := by
      have hx : str "https" ++ str "://" ++ netloc ++ path ++ str "?setid=" ++ sid =
          str "http" ++ (str "s://" ++ (netloc ++ (path ++ (str "?setid=" ++ sid)))) := by
        simp only [List.append_assoc]
        rfl
      rw [hx]
      exact isPrefixOfAppendSelf _ _
    rw [toFullUrlKeep _ h1 h2, hresh,
      normalizeMaster (str "https") netloc path (str "setid=" ++ sid) sid (by decide)
        hn hp hpq hph hqh2 hqv,
      show pyLower (str "https") = str "https" from by decide]
    simp only [List.append_assoc]
    rfl

/-- Boolean prefix test steps over a shared head character. -/
theorem isPrefixOfConsSame (c : Char) (a b : Str) :
    (c :: a).isPrefixOf (c :: b) = a.isPrefixOf b := by
  cases h : a.isPrefixOf b with
  | true =>
    exact (isPrefixOfIff _ _).mpr (List.cons_prefix_cons.mpr ⟨rfl, (isPrefixOfIff _ _).mp h⟩)
  | false =>
    rw [Bool.eq_false_iff]
    intro h2
    rw [(isPrefixOfIff _ _).mpr (List.cons_prefix_cons.mp ((isPrefixOfIff _ _).mp h2)).2] at h
    exact absurd h (by decide)

/-- A non-letter character is never equal to a letter. -/
theorem beqFalseOfLetter {c d : Char} (hc : asciiLetter c = true)
    (hd : asciiLetter d = false) : (d == c) = false := by
  cases h : d == c with
  | false => rfl
  | true =>
    have he : d = c := by simpa using h
    rw [he, hc] at hd
    exact absurd hd (by decide)

/-- A character whose lower-case form is a letter is itself a letter. -/
theorem lowerCharLetterRev {c d : Char} (h : pyLowerChar c = d)
    (hd : asciiLetter d = true) : asciiLetter c = true := by
  unfold pyLowerChar at h
  by_cases hr : 65 ≤ c.toNat ∧ c.toNat ≤ 90
  · unfold asciiLetter
    simp only [decide_eq_true_eq]
    omega
  · rw [if_neg hr] at h
    rw [h]
    exact hd

/-- Letters are scheme characters. -/
theorem schemeCharOfLetter {c : Char} (h : asciiLetter c = true) : schemeChar c = true := by
  unfold schemeChar
  rw [h]
  rfl

/-- A string that lower-cases to `https` is a valid scheme name starting
with a letter. -/
theorem schemeFromLowerHttps {sch : Str} (h : pyLower sch = str "https") :
    validSchemeName sch = true ∧ ∃ c1 r, sch = c1 :: r ∧ asciiLetter c1 = true := by
  have hs5 : str "https" = ['h', 't', 't', 'p', 's'] := by decide
  rw [hs5] at h
  rcases sch with _ | ⟨c1, _ | ⟨c2, _ | ⟨c3, _ | ⟨c4, _ | ⟨c5, _ | ⟨c6, r⟩⟩⟩⟩⟩⟩ <;>
    simp only [pyLower, List.map_cons, List.map_nil, List.cons.injEq] at h
  case cons.cons.cons.cons.cons.cons => simp at h
  case nil => simp at h
  case cons.nil => simp at h
  case cons.cons.nil => simp at h
  case cons.cons.cons.nil => simp at h
  case cons.cons.cons.cons.nil => simp at h
  case cons.cons.cons.cons.cons.nil =>
    obtain ⟨h1, h2, h3, h4, h5, -⟩ := h
    have l1 := lowerCharLetterRev h1 (by decide)
    have l2 := lowerCharLetterRev h2 (by decide)
    have l3 := lowerCharLetterRev h3 (by decide)
    have l4 := lowerCharLetterRev h4 (by decide)
    have l5 := lowerCharLetterRev h5 (by decide)
    refine ⟨?_, c1, [c2, c3, c4, c5], rfl, l1⟩
    unfold validSchemeName
    simp [List.all_cons, l1, schemeCharOfLetter l1, schemeCharOfLetter l2,
      schemeCharOfLetter l3, schemeCharOfLetter l4, schemeCharOfLetter l5]

/-- `normalizeFull` on the canonical absolute lookup URL produces the
canonical identifier. -/
theorem normalizeCanon (q sid : Str) (hqh : '#' ∉ q) (hq : qsSetidFirst q = some sid) :
    normalizeFull (str "https://dailymed.nlm.nih.gov/dailymed/lookup.cfm?" ++ q) =
      some (str "https://dailymed.nlm.nih.gov/dailymed/lookup.cfm?setid=" ++ sid) := by
  have hre : str "https://dailymed.nlm.nih.gov/dailymed/lookup.cfm?" ++ q =
      str "https" ++ str "://" ++ str "dailymed.nlm.nih.gov" ++
        str "/dailymed/lookup.cfm" ++ str "?" ++ q := by
    simp only [List.append_assoc]
    rfl
  rw [hre, normalizeMaster (str "https") (str "dailymed.nlm.nih.gov")
    (str "/dailymed/lookup.cfm") q sid (by decide) (by decide)
    (Or.inr ⟨str "dailymed/lookup.cfm", by decide⟩) (by decide) (by decide) hqh hq,
    show pyLower (str "https") = str "https" from by decide]
  simp only [List.append_assoc]
  rfl

/-- An absolute `https` result link normalizes to the canonical setid
identifier, extraneous query parameters dropped. -/
theorem candidateAbs (q sid : Str) (hqh : '#' ∉ q) (hq : qsSetidFirst q = some sid) :
    candidateOf (str "https://dailymed.nlm.nih.gov/dailymed/lookup.cfm?" ++ q) =
      some (str "https://dailymed.nlm.nih.gov/dailymed/lookup.cfm?setid=" ++ sid) := by
  have hg : pySub (str "lookup.cfm")
      (str "https://dailymed.nlm.nih.gov/dailymed/lookup.cfm?" ++ q) = true := by
    have hx : str "https://dailymed.nlm.nih.gov/dailymed/lookup.cfm?" ++ q =
        str "https://dailymed.nlm.nih.gov/dailymed/" ++ str "lookup.cfm" ++ ('?' :: q) := by
      simp only [List.append_assoc]
      rfl
    rw [hx]
    exact pySubOfParts _ _ _
  have hcons : str "https://dailymed.nlm.nih.gov/dailymed/lookup.cfm?" ++ q =
      'h' :: (str "ttps://dailymed.nlm.nih.gov/dailymed/lookup.cfm?" ++ q) := rfl
  have h1 : (str "/").isPrefixOf
      (str "https://dailymed.nlm.nih.gov/dailymed/lookup.cfm?" ++ q) = false := by
    rw [hcons]
    exact @notPreOfHeadNe (str "/") '/' 'h' [] (by decide) (by decide) _
  have h2 : (str "http").isPrefixOf
      (str "https://dailymed.nlm.nih.gov/dailymed/lookup.cfm?" ++ q) = true := by
    have hx : str "https://dailymed.nlm.nih.gov/dailymed/lookup.cfm?" ++ q =
        str "http" ++ (str "s://dailymed.nlm.nih.gov/dailymed/lookup.cfm?" ++ q) := rfl
    rw [hx]
    exact isPrefixOfAppendSelf _ _
  unfold candidateOf
  rw [if_pos (by rw [hg]; simp), toFullUrlKeep _ h1 h2]
  exact normalizeCanon q sid hqh hq

/-- A root-relative result link normalizes to the same canonical setid
identifier as the absolute form. -/
theorem candidateRel (q sid : Str) (hqh : '#' ∉ q) (hq : qsSetidFirst q = some sid) :
    candidateOf (str "/dailymed/lookup.cfm?" ++ q) =
      some (str "https://dailymed.nlm.nih.gov/dailymed/lookup.cfm?setid=" ++ sid) := by
  have hg : pySub (str "lookup.cfm") (str "/dailymed/lookup.cfm?" ++ q) = true := by
    have hx : str "/dailymed/lookup.cfm?" ++ q =
        str "/dailymed/" ++ str "lookup.cfm" ++ ('?' :: q) := by
      simp only [List.append_assoc]
      rfl
    rw [hx]
    exact pySubOfParts _ _ _
  have hslash : (str "/").isPrefixOf (str "/dailymed/lookup.cfm?" ++ q) = true := by
    have hx : str "/dailymed/lookup.cfm?" ++ q =
        str "/" ++ (str "dailymed/lookup.cfm?" ++ q) := rfl
    rw [hx]
    exact isPrefixOfAppendSelf _ _
  have hss2 : (str "//").isPrefixOf (str "/dailymed/lookup.cfm?" ++ q) = false := by
    have hx : str "/dailymed/lookup.cfm?" ++ q =
        '/' :: ('d' :: (str "ailymed/lookup.cfm?" ++ q)) := rfl
    rw [hx, show str "//" = ('/' : Char) :: ['/'] from by decide, isPrefixOfConsSame]
    exact @notPreOfHeadNe ['/'] '/' 'd' [] rfl (by decide) _
  unfold candidateOf
  rw [if_pos (by rw [hg]; simp)]
  unfold toFullUrl
  rw [if_pos hslash]
  unfold urljoinBase
  rw [if_neg (by simp [hss2]), if_pos hslash]
  have hre : str "https://dailymed.nlm.nih.gov" ++ (str "/dailymed/lookup.cfm?" ++ q) =
      str "https://dailymed.nlm.nih.gov/dailymed/lookup.cfm?" ++ q := rfl
  rw [hre]
  exact normalizeCanon q sid hqh hq

/-- A plain relative result link resolves against the base directory and
normalizes to the same canonical setid identifier. -/
theorem candidatePlain (q sid : Str) (hqh : '#' ∉ q) (hq : qsSetidFirst q = some sid) :
    candidateOf (str "lookup.cfm?" ++ q) =
      some (str "https://dailymed.nlm.nih.gov/dailymed/lookup.cfm?setid=" ++ sid) := by
  have hg : pySub (str "lookup.cfm") (str "lookup.cfm?" ++ q) = true := by
    have hx : str "lookup.cfm?" ++ q = [] ++ str "lookup.cfm" ++ ('?' :: q) := rfl
    rw [hx]
    exact pySubOfParts _ _ _
  have hcons : str "lookup.cfm?" ++ q = 'l' :: (str "ookup.cfm?" ++ q) := rfl
  have h1 : (str "/").isPrefixOf (str "lookup.cfm?" ++ q) = false := by
    rw [hcons]
    exact @notPreOfHeadNe (str "/") '/' 'l' [] (by decide) (by decide) _
  have h2 : (str "http").isPrefixOf (str "lookup.cfm?" ++ q) = false := by
    rw [hcons]
    exact @notPreOfHeadNe (str "http") 'h' 'l' (str "ttp") (by decide) (by decide) _
  have hss2 : (str "//").isPrefixOf (str "lookup.cfm?" ++ q) = false := by
    rw [hcons]
    exact @notPreOfHeadNe (str "//") '/' 'l' ['/'] (by decide) (by decide) _
  have hqm : (str "?").isPrefixOf (str "lookup.cfm?" ++ q) = false := by
    rw [hcons]
    exact @notPreOfHeadNe (str "?") '?' 'l' [] (by decide) (by decide) _
  have hsch : (splitScheme (str "lookup.cfm?" ++ q)).1 = [] := by
    unfold splitScheme
    rw [splitFirstAppendNoSep ':' (str "lookup.cfm?") q (by decide)]
    cases hsnd : (splitFirst ':' q).2 with
    | none => rfl
    | some r =>
      have hv : validSchemeName (str "lookup.cfm?" ++ (splitFirst ':' q).1) = false :=
        @validSchemeNameFalse (str "lookup.cfm?" ++ (splitFirst ':' q).1) '?'
          (List.mem_append.mpr (Or.inl (by decide))) (by decide)
      simp [hv]
  unfold candidateOf
  rw [if_pos (by rw [hg]; simp)]
  unfold toFullUrl
  rw [if_neg (by simp [h1]), if_pos (by simp [h2])]
  unfold urljoinBase
  rw [if_neg (by simp [hss2]), if_neg (by simp [h1]), if_neg (by simp [hsch]),
    if_neg (by simp [hqm])]
  have hre : str "https://dailymed.nlm.nih.gov/dailymed/" ++ (str "lookup.cfm?" ++ q) =
      str "https://dailymed.nlm.nih.gov/dailymed/lookup.cfm?" ++ q := rfl
  rw [hre]
  exact normalizeCanon q sid hqh hq

/-- A false boolean is not true. -/
theorem neTrueOfEqFalse {b : Bool} (h : b = false) : ¬(b = true) := by simp [h]

/-- A result link whose scheme is any case variant of `https` normalizes
to the same canonical identifier as the lower-case form: scheme casing is
erased by parsing (directly, or through the `urljoin` recomposition). -/
theorem candidateCased (sch q sid : Str) (hlow : pyLower sch = str "https")
    (hqh : '#' ∉ q) (hq : qsSetidFirst q = some sid) :
    candidateOf (sch ++ str "://dailymed.nlm.nih.gov/dailymed/lookup.cfm?" ++ q) =
      some (str "https://dailymed.nlm.nih.gov/dailymed/lookup.cfm?setid=" ++ sid) := by
  obtain ⟨hvs, c1, r, hsh, hc1⟩ := schemeFromLowerHttps hlow
  have hmaster : sch ++ str "://dailymed.nlm.nih.gov/dailymed/lookup.cfm?" ++ q =
      sch ++ str "://" ++ str "dailymed.nlm.nih.gov" ++ str "/dailymed/lookup.cfm" ++
        str "?" ++ q := by
    simp only [List.append_assoc]
    rfl
  have hparse : parseUrl (sch ++ str "://dailymed.nlm.nih.gov/dailymed/lookup.cfm?" ++ q) =
      ⟨str "https", str "dailymed.nlm.nih.gov", str "/dailymed/lookup.cfm", q⟩ := by
    rw [hmaster, masterParse sch (str "dailymed.nlm.nih.gov") (str "/dailymed/lookup.cfm") q
      hvs (by decide) (Or.inr ⟨str "dailymed/lookup.cfm", by decide⟩) (by decide)
      (by decide) hqh, hlow]
  have hg : pySub (str "lookup.cfm")
      (sch ++ str "://dailymed.nlm.nih.gov/dailymed/lookup.cfm?" ++ q) = true := by
    have hx : sch ++ str "://dailymed.nlm.nih.gov/dailymed/lookup.cfm?" ++ q =
        (sch ++ str "://dailymed.nlm.nih.gov/dailymed/") ++ str "lookup.cfm" ++
          ('?' :: q) := by
      simp only [List.append_assoc]
      rfl
    rw [hx]
    exact pySubOfParts _ _ _
  have hconsT : sch ++ str "://dailymed.nlm.nih.gov/dailymed/lookup.cfm?" ++ q =
      c1 :: (r ++ str "://dailymed.nlm.nih.gov/dailymed/lookup.cfm?" ++ q) := by
    rw [hsh]
    simp only [List.cons_append]
  have h1 : (str "/").isPrefixOf
      (sch ++ str "://dailymed.nlm.nih.gov/dailymed/lookup.cfm?" ++ q) = false := by
    rw [hconsT]
    exact @notPreOfHeadNe (str "/") '/' c1 [] (by decide)
      (beqFalseOfLetter hc1 (by decide)) _
  have hss2 : (str "//").isPrefixOf
      (sch ++ str "://dailymed.nlm.nih.gov/dailymed/lookup.cfm?" ++ q) = false := by
    rw [hconsT]
    exact @notPreOfHeadNe (str "//") '/' c1 ['/'] (by decide)
      (beqFalseOfLetter hc1 (by decide)) _
  unfold candidateOf
  rw [if_pos (by rw [hg]; simp)]
  by_cases hhp : (str "http").isPrefixOf
      (sch ++ str "://dailymed.nlm.nih.gov/dailymed/lookup.cfm?" ++ q) = true
  · rw [toFullUrlKeep _ h1 hhp]
    unfold normalizeFull
    rw [hparse]
    have hre : (⟨str "https", str "dailymed.nlm.nih.gov", str "/dailymed/lookup.cfm", q⟩ :
        ParsedUrl).query = q := rfl
    simp only [hre, hq]
    simp only [List.append_assoc]
    rfl
  · have hhpf : (str "http").isPrefixOf
        (sch ++ str "://dailymed.nlm.nih.gov/dailymed/lookup.cfm?" ++ q) = false :=
      Bool.eq_false_iff.mpr hhp
    unfold toFullUrl
    rw [if_neg (neTrueOfEqFalse h1), if_pos (by rw [hhpf]; rfl)]
    unfold urljoinBase
    have hcolonshape : sch ++ str "://dailymed.nlm.nih.gov/dailymed/lookup.cfm?" ++ q =
        sch ++ ':' :: (str "//dailymed.nlm.nih.gov/dailymed/lookup.cfm?" ++ q) := by
      simp only [List.append_assoc]
      rfl
    have hsplit : splitScheme (sch ++ str "://dailymed.nlm.nih.gov/dailymed/lookup.cfm?" ++ q) =
        (str "https", str "//dailymed.nlm.nih.gov/dailymed/lookup.cfm?" ++ q) := by
      rw [hcolonshape]
      unfold splitScheme
      rw [splitFirstAppend ':' sch _ (schemeNoColon hvs)]
      simp [hvs, hlow]
    rw [if_neg (neTrueOfEqFalse hss2), if_neg (neTrueOfEqFalse h1),
      if_pos (show (splitScheme (sch ++ str "://dailymed.nlm.nih.gov/dailymed/lookup.cfm?" ++ q)).1 ≠ []
        from by rw [hsplit]; exact (show str "https" ≠ [] from by decide))]
    unfold joinAbsolute
    rw [if_pos (by rw [hsplit])]
    have hqne : q ≠ [] := by
      intro hq0
      rw [hq0, show qsSetidFirst [] = none from rfl] at hq
      exact Option.noConfusion hq
    rw [hparse]
    simp only [if_pos hqne]
    have hre2 : str "https://" ++ str "dailymed.nlm.nih.gov" ++ str "/dailymed/lookup.cfm" ++
        (str "?" ++ q) = str "https://dailymed.nlm.nih.gov/dailymed/lookup.cfm?" ++ q := by
      simp only [List.append_assoc]
      rfl
    rw [hre2]
    exact normalizeCanon q sid hqh hq

/-- C2 (amended): candidate-identifier normalization is idempotent on the
canonical `http`/`https` setid identifiers it produces, and result links
carrying the same setid normalize to one identical identifier across
relative vs absolute forms, extraneous query parameters, and scheme
casing; host (netloc) casing, however, is preserved by `urlparse`, so it
is not erased (see the counterexample). -/
theorem C2_normalization :
    (∀ sch netloc path sid : Str,
      (sch = str "http" ∨ sch = str "https") →
      (∀ c ∈ netloc, netlocChar c = true) →
      (path = [] ∨ ∃ pt, path = '/' :: pt) →
      '?' ∉ path → '#' ∉ path → sid ≠ [] → '&' ∉ sid → '#' ∉ sid →
      candidateOf (sch ++ str "://" ++ netloc ++ path ++ str "?setid=" ++ sid) =
        some (sch ++ str "://" ++ netloc ++ path ++ str "?setid=" ++ sid)) ∧
    (∀ q1 q2 q3 q4 sch sid : Str,
      '#' ∉ q1 → '#' ∉ q2 → '#' ∉ q3 → '#' ∉ q4 →
      qsSetidFirst q1 = some sid → qsSetidFirst q2 = some sid →
      qsSetidFirst q3 = some sid → qsSetidFirst q4 = some sid →
      pyLower sch = str "https" →
      candidateOf (str "/dailymed/lookup.cfm?" ++ q1) =
          some (str "https://dailymed.nlm.nih.gov/dailymed/lookup.cfm?setid=" ++ sid) ∧
      candidateOf (str "lookup.cfm?" ++ q2) =
          some (str "https://dailymed.nlm.nih.gov/dailymed/lookup.cfm?setid=" ++ sid) ∧
      candidateOf (str "https://dailymed.nlm.nih.gov/dailymed/lookup.cfm?" ++ q3) =
          some (str "https://dailymed.nlm.nih.gov/dailymed/lookup.cfm?setid=" ++ sid) ∧
      candidateOf (sch ++ str "://dailymed.nlm.nih.gov/dailymed/lookup.cfm?" ++ q4) =
          some (str "https://dailymed.nlm.nih.gov/dailymed/lookup.cfm?setid=" ++ sid)) :=
  ⟨candidateIdem,
   fun q1 q2 q3 q4 sch sid h1 h2 h3 h4 hq1 hq2 hq3 hq4 hlow =>
    ⟨candidateRel q1 sid h1 hq1, candidatePlain q2 sid h2 hq2,
     candidateAbs q3 sid h3 hq3, candidateCased sch q4 sid hlow h4 hq4⟩⟩

/-- Counterexample to C2 as stated: two links carrying the same setid and
differing only in host casing do not normalize to an identical identifier
string — `urlparse` preserves the netloc's case, so the two normalized
identifiers differ. -/
theorem C2_counterexample :
    qsSetidFirst (parseUrl (str "https://HOST/p?setid=x")).query = some (str "x") ∧
    qsSetidFirst (parseUrl (str "https://host/p?setid=x")).query = some (str "x") ∧
    candidateOf (str "https://HOST/p?setid=x") = some (str "https://HOST/p?setid=x") ∧
    candidateOf (str "https://host/p?setid=x") = some (str "https://host/p?setid=x") ∧
    candidateOf (str "https://HOST/p?setid=x") ≠
      candidateOf (str "https://host/p?setid=x") := by
  decide

/-- Witness for C2 at concrete links: a canonical identifier re-normalizes
to itself, and four surface variants of the same setid record — relative,
plain relative, absolute with extra query parameters, and upper-cased
scheme — all normalize to the identical identifier. -/
theorem C2_witness :
    candidateOf (str "https://dailymed.nlm.nih.gov/dailymed/lookup.cfm?setid=abc-123") =
      some (str "https://dailymed.nlm.nih.gov/dailymed/lookup.cfm?setid=abc-123") ∧
    candidateOf (str "/dailymed/lookup.cfm?setid=abc-123&page=2") =
      some (str "https://dailymed.nlm.nih.gov/dailymed/lookup.cfm?setid=abc-123") ∧
    candidateOf (str "lookup.cfm?setid=abc-123") =
      some (str "https://dailymed.nlm.nih.gov/dailymed/lookup.cfm?setid=abc-123") ∧
    candidateOf (str "https://dailymed.nlm.nih.gov/dailymed/lookup.cfm?x=1&setid=abc-123") =
      some (str "https://dailymed.nlm.nih.gov/dailymed/lookup.cfm?setid=abc-123") ∧
    candidateOf (str "HTTPS://dailymed.nlm.nih.gov/dailymed/lookup.cfm?setid=abc-123") =
      some (str "https://dailymed.nlm.nih.gov/dailymed/lookup.cfm?setid=abc-123") :=
  ⟨C2_normalization.1 (str "https") (str "dailymed.nlm.nih.gov")
     (str "/dailymed/lookup.cfm") (str "abc-123") (Or.inr rfl) (by decide)
     (Or.inr ⟨str "dailymed/lookup.cfm", by decide⟩) (by decide) (by decide)
     (by decide) (by decide) (by decide),
   (C2_normalization.2 (str "setid=abc-123&page=2") (str "setid=abc-123")
     (str "x=1&setid=abc-123") (str "setid=abc-123") (str "HTTPS") (str "abc-123")
     (by decide) (by decide) (by decide) (by decide) (by decide) (by decide)
     (by decide) (by decide) (by decide)).1,
   (C2_normalization.2 (str "setid=abc-123&page=2") (str "setid=abc-123")
     (str "x=1&setid=abc-123") (str "setid=abc-123") (str "HTTPS") (str "abc-123")
     (by decide) (by decide) (by decide) (by decide) (by decide) (by decide)
     (by decide) (by decide) (by decide)).2.1,
   (C2_normalization.2 (str "setid=abc-123&page=2") (str "setid=abc-123")
     (str "x=1&setid=abc-123") (str "setid=abc-123") (str "HTTPS") (str "abc-123")
     (by decide) (by decide) (by decide) (by decide) (by decide) (by decide)
     (by decide) (by decide) (by decide)).2.2.1,
   (C2_normalization.2 (str "setid=abc-123&page=2") (str "setid=abc-123")
     (str "x=1&setid=abc-123") (str "setid=abc-123") (str "HTTPS") (str "abc-123")
     (by decide) (by decide) (by decide) (by decide) (by decide) (by decide)
     (by decide) (by decide) (by decide)).2.2.2⟩
